import Mathlib

/-!
Shallow embedding of the YNAB-Butler ingestion core
(`src/importers/ingestion_engine.py`, `src/importers/zip_utils.py`,
`src/importers/email_importer.py`, `src/ynabbridge/account_mapping.py`,
`src/ynabbridge/formatter.py`) and proofs of the specification claims.

Python dictionaries are modelled as insertion-ordered association lists with
unique keys, Python sets as lists with membership-guarded insertion, and
machine strings as Lean `String`.  Fallible Python calls are modelled with
`Option`/`Except`.
-/

namespace YnabButler

/-- Python whitespace as stripped by `str.strip()` (ASCII subset). -/
def isPySpace (c : Char) : Bool :=
  c.val = 32 ∨ c.val = 9 ∨ c.val = 10 ∨ c.val = 13 ∨ c.val = 11 ∨ c.val = 12

/-- Python `str.strip()` (kernel-reducible replacement for `String.trim`). -/
def pyStrip (s : String) : String :=
  String.mk (((s.data.dropWhile isPySpace).reverse.dropWhile isPySpace).reverse)

/-- Python `str.lower()` (ASCII case folding, kernel-reducible). -/
def pyLower (s : String) : String :=
  String.mk (s.data.map Char.toLower)

/-- Lexicographic order on character lists (Python string `<`). -/
def strLtChars : List Char → List Char → Bool
  | [], [] => false
  | [], _ :: _ => true
  | _ :: _, [] => false
  | a :: as, b :: bs =>
    if a.val < b.val then true else if b.val < a.val then false else strLtChars as bs

/-- Python string `<`. -/
def strLt (a b : String) : Bool := strLtChars a.data b.data

/-- Python `str.endswith` (kernel-reducible replacement for
`String.endsWith`). -/
def strEndsWithPy (s suff : String) : Bool :=
  suff.data.length ≤ s.data.length &&
    s.data.drop (s.data.length - suff.data.length) == suff.data

/-- Python truthiness of an optional string: `None` and `""` are falsy. -/
def otruthy : Option String → Bool
  | none => false
  | some s => s ≠ ""

/-- Normalize a truthy test: map falsy values (`None`, `""`) to `none`. -/
def pyOptStr : Option String → Option String
  | none => none
  | some s => if s = "" then none else some s

/-- Association-list lookup (Python `dict[k]` / `dict.get(k)`). -/
def alookup {β : Type} (k : String) : List (String × β) → Option β
  | [] => none
  | (k2, v) :: rest => if k2 = k then some v else alookup k rest

/-- Association-list write (Python `dict[k] = v`): update in place if the key
exists, otherwise append at the end (insertion order). -/
def aset {β : Type} (k : String) (v : β) : List (String × β) → List (String × β)
  | [] => [(k, v)]
  | (k2, v2) :: rest => if k2 = k then (k2, v) :: rest else (k2, v2) :: aset k v rest

/-- Python `dict.setdefault(k, v)`: insert only when absent. -/
def asetdefault {β : Type} (k : String) (v : β) (l : List (String × β)) : List (String × β) :=
  match alookup k l with
  | some _ => l
  | none => l ++ [(k, v)]

/-- Mutate the value stored under `k` in place (models Python code that takes a
reference to `dict[k]` and mutates it; a no-op when the key is absent). -/
def amodify {β : Type} (k : String) (f : β → β) : List (String × β) → List (String × β)
  | [] => []
  | (k2, v2) :: rest => if k2 = k then (k2, f v2) :: rest else (k2, v2) :: amodify k f rest

/-- Python `dict.pop(k, None)`. -/
def aerase {β : Type} (k : String) : List (String × β) → List (String × β)
  | [] => []
  | (k2, v2) :: rest => if k2 = k then rest else (k2, v2) :: aerase k rest

/-- Python `set.add` on a set modelled as a duplicate-free list. -/
def sinsert (x : String) (l : List String) : List String :=
  if l.contains x then l else l ++ [x]

/-! ## zip_utils.py : brute-force candidate generation -/

/-- `_generate_all_six_digit_random_generator` (zip_utils.py, lines 49-64):
virtual Fisher-Yates shuffle.  At step `i` the source draws
`j = random.randint(i, n - 1)`, swaps `remaining[i]` with `remaining[j]` and
yields the new `remaining[i]`.  Here `rem` is the suffix `remaining[i:]`, and
`pick i` models the raw draw `j` (so the offset into `rem` is `pick i - i`).
An out-of-range draw (which `random.randint(i, n-1)` never produces) is
clamped to behave like `j = i`. -/
def fisherYates (pick : Nat → Nat) : Nat → List Nat → List Nat
  | _, [] => []
  | i, x :: xs =>
    let k := pick i - i
    ((x :: xs).getD k x) :: fisherYates pick (i + 1) (if k = 0 then xs else xs.set (k - 1) x)
  termination_by i l => l.length
  decreasing_by simp; split <;> simp [List.length_set]

/-- The full generator output: a shuffled enumeration of `0 .. n-1`. -/
def virtualShuffle (pick : Nat → Nat) (n : Nat) : List Nat :=
  fisherYates pick 0 (List.range n)

/-- Python `f"{num:06d}"`. -/
def format6 (n : Nat) : String :=
  let s := toString n
  String.mk (List.replicate (6 - s.length) '0') ++ s

/-- `_COMMON_PASSPHRASES` (zip_utils.py, line 42), held in a deque and tried
first. -/
def commonPassphrases : List String := ["123456", "000000", "036383"]

/-- Per-identifier brute-force state (`_BRUTEFORCE_STATE` iterator+counter and
`_BRUTEFORCE_HEURISTICS` deque, zip_utils.py lines 37-38).  `pool` is the part
of the six-digit generator not yet consumed. -/
structure BFState where
  pool : List Nat
  count : Nat
  heuristics : List String
deriving DecidableEq, Repr

/-- Number of candidates the source can still emit, ignoring the cap. -/
def bfMeasure (bf : BFState) : Nat := bf.heuristics.length + bf.pool.length

/-- State created on first sight of an identifier (zip_utils.py lines 109-111). -/
def initBFState (pick : Nat → Nat) : BFState :=
  { pool := virtualShuffle pick 1000000, count := 0, heuristics := commonPassphrases }

/-- `next_six_digit_candidate` (zip_utils.py, lines 98-138) for an identifier
whose state is `bf`; `cap` is `_MAX_BRUTEFORCE_ATTEMPTS` (0 or negative =
unlimited). -/
def nextSixDigitCandidate (cap : Int) (bf : BFState) : Option String × BFState :=
  match bf.heuristics with
  | h :: hs =>
    if 0 < cap ∧ cap.toNat ≤ bf.count then (none, bf)
    else (some h, { bf with heuristics := hs, count := bf.count + 1 })
  | [] =>
    if 0 < cap ∧ cap.toNat ≤ bf.count then (none, bf)
    else
      match bf.pool with
      | [] => (none, bf)
      | p :: ps => (some (format6 p), { bf with pool := ps, count := bf.count + 1 })

/-- The finite stream of candidates obtained by calling
`next_six_digit_candidate` repeatedly until it returns `None`; `fuel` bounds
the number of calls (`bfMeasure bf` always suffices). -/
def candidateRun (cap : Int) : Nat → BFState → List String
  | 0, _ => []
  | fuel + 1, bf =>
    match nextSixDigitCandidate cap bf with
    | (none, _) => []
    | (some c, bf2) => c :: candidateRun cap fuel bf2

/-! ## zip_utils.py : reading an encrypted member -/

/-- Outcome of one decryption attempt of an encrypted member with a given
passphrase.  `wrongPass` covers both `RuntimeError` and the
decompression/CRC errors of `_ZIP_DECOMPRESSION_ERRORS` — the code treats the
two identically (zip_utils.py lines 204-241); `fatal` is any other exception
(lines 242-244). -/
inductive DecOutcome where
  | ok (content : String)
  | wrongPass
  | fatal
deriving DecidableEq, Repr

/-- Terminal result of `_read_encrypted_member`'s search loop. -/
inductive ReadOutcome where
  | got (content : String)
  | skippedNoPassphrase
  | skippedFatal
deriving DecidableEq, Repr

/-- `_read_encrypted_member` (zip_utils.py, lines 141-244).  `decrypt` models
opening/reading the member under a passphrase (the chunked fast-fail read of
lines 178-191 returns the same bytes as the direct read, so both reads
collapse to one oracle).  `resolve` is the passphrase resolver threaded with
its own state `rs` and called with the current failure count `attempts`;
`cache` is the shared passphrase cache keyed by `ck`.  The Python loop is
`while True`; `fuel` bounds the iterations and `none` means the bound was hit
(never with adequate fuel, see the termination theorem). -/
def readEncryptedMember {ρ : Type} (decrypt : String → DecOutcome)
    (resolve : Nat → ρ → Option String × ρ) (ck : String) :
    Nat → List (String × String) → Nat → ρ →
    Option (ReadOutcome × List (String × String) × ρ)
  | 0, _, _, _ => none
  | fuel + 1, cache, attempts, rs =>
    match alookup ck cache with
    | some pw =>
      match decrypt pw with
      | .ok content => some (.got content, cache, rs)
      | .wrongPass => readEncryptedMember decrypt resolve ck fuel (aerase ck cache) (attempts + 1) rs
      | .fatal => some (.skippedFatal, cache, rs)
    | none =>
      let out := resolve attempts rs
      let cand := out.1
      let rs2 := out.2
      match pyOptStr cand with
      | none => some (.skippedNoPassphrase, cache, rs2)
      | some pw =>
        let cache2 := aset ck pw cache
        match decrypt pw with
        | .ok content => some (.got content, cache2, rs2)
        | .wrongPass => readEncryptedMember decrypt resolve ck fuel (aerase ck cache2) (attempts + 1) rs2
        | .fatal => some (.skippedFatal, cache2, rs2)

/-- `_default_passphrase_resolver` (email_importer.py, lines 307-317): at
attempt 0 try the environment passphrase (already stripped by
`get_env_passphrase`); otherwise draw from the per-identifier six-digit
candidate source.  The resolver state is the pair (environment passphrase,
brute-force state); `cap` is `_MAX_BRUTEFORCE_ATTEMPTS`. -/
def defaultResolver (cap : Int) : Nat → Option String × BFState →
    Option String × (Option String × BFState)
  | attempts, (env, bf) =>
    if attempts = 0 then
      match pyOptStr env with
      | some p => (some p, (env, bf))
      | none =>
        let out := nextSixDigitCandidate cap bf
        (out.1, (env, out.2))
    else
      let out := nextSixDigitCandidate cap bf
      (out.1, (env, out.2))

/-! ## zip_utils.py : archive extraction -/

/-- One archive member as seen by `_extract_zip` (zip_utils.py lines 260-294).
`plainRead` models `zf.read(info)` on an unencrypted member (`none` = the read
raised, caught at lines 286-292); `decrypt` models attempts on an encrypted
member. -/
structure Member where
  filename : String
  encrypted : Bool
  plainRead : Option String
  decrypt : String → DecOutcome

/-- Member filter of `_extract_zip`: directories (trailing `/`) and empty
names are skipped; when an allow-list is given (non-empty, Python truthiness)
only members whose lower-cased name ends in one of the extensions pass. -/
def memberSelected (allowed : List String) (name : String) : Bool :=
  ¬ (name = "" || strEndsWithPy name "/") &&
    (allowed.isEmpty || allowed.any (fun ext => strEndsWithPy (pyLower name) ext))

/-- The per-member read of `_extract_zip` (zip_utils.py, lines 270-292):
encrypted members go through `_read_encrypted_member` (a skipped member
yields no data but keeps the updated cache/resolver state), unencrypted
members are read directly with exceptions caught.  Returns
`(data, cache, resolver state)`. -/
def readMemberData {ρ : Type} (resolve : Nat → ρ → Option String × ρ) (ck : String)
    (fuel : Nat) (m : Member) (cache : List (String × String)) (rs : ρ) :
    Option String × List (String × String) × ρ :=
  if m.encrypted then
    match readEncryptedMember m.decrypt resolve ck fuel cache 0 rs with
    | some (.got c, cache2, rs2) => (some c, cache2, rs2)
    | some (_, cache2, rs2) => (none, cache2, rs2)
    | none => (none, cache, rs)
  else (m.plainRead, cache, rs)

/-- `_extract_zip` (zip_utils.py, lines 247-299): walk the members in order,
thread the passphrase cache and resolver state through encrypted reads, and
collect `(name, data)` for every member whose read produced truthy (non-empty)
data.  Failed members are skipped silently. -/
def extractZip {ρ : Type} (resolve : Nat → ρ → Option String × ρ) (ck : String)
    (allowed : List String) (fuel : Nat) :
    List Member → List (String × String) → ρ →
    List (String × String) × List (String × String) × ρ
  | [], cache, rs => ([], cache, rs)
  | m :: ms, cache, rs =>
    if memberSelected allowed m.filename then
      let dcr := readMemberData resolve ck fuel m cache rs
      let rest := extractZip resolve ck allowed fuel ms dcr.2.1 dcr.2.2
      (match dcr.1 with
        | some c => if c = "" then rest.1 else (m.filename, c) :: rest.1
        | none => rest.1, rest.2)
    else
      extractZip resolve ck allowed fuel ms cache rs

/-! ## ynabbridge/formatter.py -/

/-- One row of the normalized table.  A pandas cell holding NaN/None is
`none`.  `amount` is modelled as a Python `int` (the `isinstance(amount_val,
int)` branch of the formatter passes it through unchanged; float amounts are
outside this embedding). -/
structure Row where
  owner_name : Option String
  account_name : Option String
  date : String
  amount : Int
  payee_name : Option String
  memo : String
  status : String
deriving DecidableEq, Repr

/-- A pandas DataFrame: whether the `owner_name` / `account_name` columns
exist, plus the rows.  When a column is absent, `row.get` returns `None`
regardless of the per-row field. -/
structure DataFrame where
  hasOwnerCol : Bool
  hasAccountCol : Bool
  rows : List Row
deriving DecidableEq, Repr

/-- A YNAB transaction dict as built by `convert_to_ynab_format`. -/
structure Transaction where
  account_id : Option String
  date : String
  amount : Int
  payee_name : String
  memo : String
  import_id : String
  cleared : String
deriving DecidableEq, Repr

/-- `convert_to_ynab_format` (formatter.py, lines 5-50).  `name_to_account_id`
maps lower-cased origin names to YNAB account ids; `account_id` is the
per-engine default used when no mapping matches (Python falsiness: an empty
mapped id also falls back). -/
def convert_to_ynab_format (df : DataFrame) (account_id : Option String)
    (name_to_account_id : Option (List (String × String))) : List Transaction :=
  df.rows.map fun r =>
    let payee := (r.payee_name).getD ""
    let origin := if df.hasAccountCol then r.account_name else none
    let keyCandidates : List String :=
      match origin with
      | some o => if pyStrip o = "" then [] else [pyLower (pyStrip o)]
      | none => []
    let mapped : Option String :=
      match name_to_account_id with
      | some m => keyCandidates.foldr (fun k acc => match alookup k m with
          | some v => some v
          | none => acc) none
      | none => none
    let acct := if otruthy mapped then mapped else account_id
    { account_id := acct
      date := r.date
      amount := r.amount
      payee_name := payee
      memo := r.memo
      import_id := "YNAB:" ++ r.date ++ ":" ++ toString r.amount
      cleared := if r.status = "交易成功" ∨ r.status = "cleared" then "cleared" else "uncleared" }

/-! ## ynabbridge/account_mapping.py -/

/-- A YNAB account dict (`{id, name, type}`), fields beyond `id`/`name`
omitted. -/
structure Account where
  id : String
  name : String
deriving DecidableEq, Repr

/-- Key format of the persisted mapping file and of the state store:
`"{budget_id}:{account_name_lower}"`. -/
def accountMappingKey (budget_id account_name : String) : String :=
  budget_id ++ ":" ++ pyLower (pyStrip account_name)

/-- A Python runtime error raised by a call. -/
inductive PyError where
  | typeError (msg : String)
deriving DecidableEq, Repr

/-- The parameter names in the signature of `get_or_create_mapping`
(account_mapping.py, line 49): `def get_or_create_mapping(budget_id,
account_name, accounts)`. -/
def getOrCreateMappingParams : List String := ["budget_id", "account_name", "accounts"]

/-- Body of `get_or_create_mapping` (account_mapping.py, lines 49-65): consult
the JSON mapping file (`data/account_mappings.json`, modelled as the
association list `fileMappings`), otherwise prompt the user to pick one of
`accounts` (`select_account_interactive` returns `None` exactly when
`accounts` is empty, else the user's pick) and persist the new file mapping.
Note the durable medium is the module-level mappings file — not the engine's
state store. -/
def getOrCreateMappingBody (fileMappings : List (String × String))
    (budget_id account_name : String) (accounts : List Account)
    (pick : List Account → Account) :
    Option String × List (String × String) :=
  let key := accountMappingKey budget_id account_name
  match alookup key fileMappings with
  | some v => (some v, fileMappings)
  | none =>
    match accounts with
    | [] => (none, fileMappings)
    | _ :: _ =>
      let selected := pick accounts
      (some selected.id, aset key selected.id fileMappings)

/-- Semantics of a Python call to `get_or_create_mapping` that supplies the
keyword arguments named in `kwargNames` on top of the three positional
arguments: if any keyword is not a parameter of the function's signature, the
call raises `TypeError` before the body runs. -/
def callGetOrCreateMapping (kwargNames : List String)
    (fileMappings : List (String × String)) (budget_id account_name : String)
    (accounts : List Account) (pick : List Account → Account) :
    Except PyError (Option String × List (String × String)) :=
  if kwargNames.all (fun k => getOrCreateMappingParams.contains k) then
    .ok (getOrCreateMappingBody fileMappings budget_id account_name accounts pick)
  else
    .error (.typeError "get_or_create_mapping() got an unexpected keyword argument")

/-! ## importers/email_importer.py : EmailStateStore -/

/-- The in-memory `_data` dict of `EmailStateStore` after `_load` has run:
`mailboxes[mailbox_key]["processed_uids"]` (a JSON list), `owner_budget`, and
`account_mappings` are always present, and the legacy `sender_budget` key has
been popped. -/
structure StoreData where
  mailboxes : List (String × List String)
  owner_budget : List (String × String)
  account_mappings : List (String × String)
deriving DecidableEq, Repr

/-- The JSON document on disk: the three live keys plus the legacy
`sender_budget` section that `_load` silently drops ( `[]` = key absent). -/
structure StoreFile where
  mailboxes : List (String × List String)
  sender_budget : List (String × String)
  owner_budget : List (String × String)
  account_mappings : List (String × String)
deriving DecidableEq, Repr

/-- `EmailStateStore`: in-memory data plus the dirty flag. -/
structure EmailStateStore where
  data : StoreData
  dirty : Bool
deriving DecidableEq, Repr

/-- `EmailStateStore._load` (email_importer.py, lines 89-103): a missing or
corrupt file (`none`) degrades to the empty store; otherwise the legacy
`sender_budget` key is dropped and the three live keys defaulted in. -/
def EmailStateStore.loadFrom (file : Option StoreFile) : EmailStateStore :=
  match file with
  | none => { data := { mailboxes := [], owner_budget := [], account_mappings := [] }, dirty := false }
  | some f =>
    { data := { mailboxes := f.mailboxes, owner_budget := f.owner_budget,
                account_mappings := f.account_mappings }
      dirty := false }

/-- `EmailStateStore.save` (email_importer.py, lines 105-113): when dirty,
atomically replace the file with the serialized `_data` (which no longer
holds a `sender_budget` key) and clear the dirty flag; otherwise do nothing.
Returns (store after save, file contents after save), with `prev` the file
contents before. -/
def EmailStateStore.save (s : EmailStateStore) (prev : Option StoreFile) :
    EmailStateStore × Option StoreFile :=
  if s.dirty then
    ({ s with dirty := false },
     some { mailboxes := s.data.mailboxes, sender_budget := [],
            owner_budget := s.data.owner_budget,
            account_mappings := s.data.account_mappings })
  else (s, prev)

/-- `get_processed_uids` (lines 115-117): the stored list read back as a set
(membership is what matters). -/
def EmailStateStore.get_processed_uids (s : EmailStateStore) (mailbox_key : String) : List String :=
  (alookup mailbox_key s.data.mailboxes).getD []

/-- `add_processed_uids` (lines 119-128): append genuinely new uids, marking
dirty only on a genuine addition. -/
def EmailStateStore.add_processed_uids (s : EmailStateStore) (mailbox_key : String)
    (uids : List String) : EmailStateStore :=
  let stored := (alookup mailbox_key s.data.mailboxes).getD []
  let stored2 := uids.foldl (fun acc uid => if acc.contains uid then acc else acc ++ [uid]) stored
  if stored2 = stored ∧ (alookup mailbox_key s.data.mailboxes).isSome then s
  else
    { data := { s.data with mailboxes := aset mailbox_key stored2 s.data.mailboxes }
      dirty := if stored2 = stored then s.dirty else true }

/-- `get_owner_budget` (lines 130-133). -/
def EmailStateStore.get_owner_budget (s : EmailStateStore) (owner : String) : Option String :=
  if owner = "" then none else alookup (pyLower owner) s.data.owner_budget

/-- `set_owner_budget` (lines 135-142): no-op on an empty owner or an
unchanged value, else write and mark dirty. -/
def EmailStateStore.set_owner_budget (s : EmailStateStore) (owner budget_id : String) :
    EmailStateStore :=
  if owner = "" then s
  else
    let key := pyLower owner
    if alookup key s.data.owner_budget = some budget_id then s
    else
      { data := { s.data with owner_budget := aset key budget_id s.data.owner_budget }
        dirty := true }

/-- `get_account_mapping` (lines 148-151). -/
def EmailStateStore.get_account_mapping (s : EmailStateStore) (budget_id account_name : String) :
    Option String :=
  if budget_id = "" ∨ account_name = "" then none
  else alookup (accountMappingKey budget_id account_name) s.data.account_mappings

/-! ## importers/ingestion_engine.py -/

/-- `_clean_owner_label` (ingestion_engine.py, lines 309-315) on a possibly
missing cell. -/
def cleanOwnerLabel : Option String → String
  | none => ""
  | some s =>
    let t := pyStrip s
    if t = "" ∨ pyLower t = "nan" ∨ pyLower t = "none" ∨ pyLower t = "null" then "" else t

/-- `_owner_cache_key` (lines 318-319). -/
def ownerCacheKey (label : String) : String := pyLower (cleanOwnerLabel (some label))

/-- Insert into a sorted duplicate-free list of strings (used to model
Python's `sorted(set-like)`respecting case-sensitive string order). -/
def insertSortedStr (x : String) : List String → List String
  | [] => [x]
  | y :: ys => if x = y then y :: ys else if strLt x y then x :: y :: ys else y :: insertSortedStr x ys

/-- Python `sorted({...})`: sorted duplicate-free enumeration. -/
def sortedUniqueStr (l : List String) : List String :=
  l.foldl (fun acc x => insertSortedStr x acc) []

/-- First-occurrence deduplication (fixes an iteration order for Python set
comprehensions whose order is unspecified). -/
def dedupPreserve (l : List String) : List String :=
  l.foldl (fun acc x => if acc.contains x then acc else acc ++ [x]) []

/-- `_group_df_by_owner` (lines 322-334): split the table into one sub-table
per distinct cleaned owner value (sorted), or attribute the whole table to the
fallback label when the owner column is absent or holds no valid value. -/
def groupDfByOwner (df : DataFrame) (fallback_label : String) : List (String × DataFrame) :=
  if ¬ df.hasOwnerCol then [(fallback_label, df)]
  else
    let cleaned := df.rows.map (fun r => cleanOwnerLabel r.owner_name)
    if cleaned.all (fun c => c = "") then [(fallback_label, df)]
    else
      let owners := sortedUniqueStr (cleaned.filter (fun c => c ≠ ""))
      owners.map (fun o =>
        (o, { df with rows := df.rows.filter (fun r => cleanOwnerLabel r.owner_name = o) }))

/-- One per-owner statistics record (`_init_owner_summary_entry`, lines
369-379); `sources` and `messages` are Python sets. -/
structure SummaryEntry where
  label : String
  sources : List String
  messages : List String
  parsed : Nat
  prepared : Nat
  uploaded : Nat
  skipped : Nat
  warnings : List String
deriving DecidableEq, Repr

def initOwnerSummaryEntry (label : String) : SummaryEntry :=
  { label := label, sources := [], messages := [], parsed := 0, prepared := 0,
    uploaded := 0, skipped := 0, warnings := [] }

/-- `IngestionItem` (lines 25-34); `message_uids` is
`metadata.get('message_uids', set())`. -/
structure IngestionItem where
  item_id : String
  display_name : String
  dataframe : DataFrame
  fallback_owner : String
  source : String
  message_uids : List String
deriving DecidableEq, Repr

/-- `IngestionResult` (lines 45-54). -/
structure IngestionResult where
  successful_items : List IngestionItem
  failed_items : List (IngestionItem × String)
deriving DecidableEq, Repr

def IngestionResult.all_succeeded (r : IngestionResult) : Bool := r.failed_items = []

/-- One `(owner, budget)` accumulator in `_owner_batches` (line 272-275). -/
structure Batch where
  label : String
  budget_id : String
  transactions : List Transaction
deriving DecidableEq, Repr

/-- A YNAB budget dict (`{id, name}`). -/
structure Budget where
  id : String
  name : String
deriving DecidableEq, Repr

/-- The engine's constructor arguments and external collaborators.
`list_accounts`/`upload_ok` model the Budgeting Client; `choose_budget` is the
user's pick inside `select_budget_interactive` (that loop returns only a valid
selection, so it is total once `budgets` is non-empty); `pick_account` is the
user's pick inside `select_account_interactive`; `fileMappings` is the content
of `data/account_mappings.json` at run start. -/
structure EngineCfg where
  budgets : List Budget
  default_budget_id : Option String
  default_account_id : Option String
  force_budget_id : Option String
  list_accounts : String → List Account
  upload_ok : List Transaction → String → Bool
  choose_budget : List Budget → Option String → String
  pick_account : List Account → Account
  fileMappings : List (String × String)

/-- The engine's mutable state (constructor lines 105-115), plus the state
store it owns a reference to. -/
structure EngineState where
  owner_budget_cache : List (String × String)
  budget_accounts_cache : List (String × List Account)
  owner_summary : List (String × SummaryEntry)
  owner_batches : List (String × Batch)
  owner_item_map : List (String × List String)
  item_owner_map : List (String × List String)
  item_registry : List (String × IngestionItem)
  item_failures : List (String × String)
  flushed : Bool
  result : Option IngestionResult
  store : Option EmailStateStore
deriving DecidableEq, Repr

/-- Freshly constructed engine. -/
def initEngineState (store : Option EmailStateStore) : EngineState :=
  { owner_budget_cache := [], budget_accounts_cache := [], owner_summary := [],
    owner_batches := [], owner_item_map := [], item_owner_map := [],
    item_registry := [], item_failures := [], flushed := false, result := none,
    store := store }

/-- `select_budget_interactive` (lines 57-83): `None` exactly when the budget
list is empty; otherwise the interactive loop runs until a valid pick. -/
def selectBudgetInteractive (cfg : EngineCfg) (budgets : List Budget)
    (current : Option String) : Option String :=
  match budgets with
  | [] => none
  | _ :: _ => some (cfg.choose_budget budgets current)

/-- `_prompt_budget_for_owner` (lines 337-346). -/
def promptBudgetForOwner (cfg : EngineCfg) : Option String :=
  selectBudgetInteractive cfg cfg.budgets cfg.default_budget_id

/-- `IngestionEngine._resolve_budget_for_owner` (lines 290-306). -/
def resolveBudgetForOwner (cfg : EngineCfg) (st : EngineState) (owner_label : String) :
    Option String × EngineState :=
  let key := if ownerCacheKey owner_label = "" then pyLower owner_label else ownerCacheKey owner_label
  match pyOptStr cfg.force_budget_id with
  | some f => (some f, { st with owner_budget_cache := aset key f st.owner_budget_cache })
  | none =>
    match alookup key st.owner_budget_cache with
    | some b => (some b, st)
    | none =>
      let stored := match st.store with
        | some s => pyOptStr (s.get_owner_budget owner_label)
        | none => none
      match stored with
      | some b => (some b, { st with owner_budget_cache := aset key b st.owner_budget_cache })
      | none =>
        let selected := pyOptStr (promptBudgetForOwner cfg)
        let st2 := match selected, st.store with
          | some b, some s => { st with store := some (s.set_owner_budget owner_label b) }
          | _, _ => st
        match selected with
        | some b => (some b, { st2 with owner_budget_cache := aset key b st2.owner_budget_cache })
        | none => (none, st2)

/-- `IngestionEngine._get_accounts_for_budget` (lines 281-288). -/
def getAccountsForBudget (cfg : EngineCfg) (st : EngineState) (budget_id : String) :
    List Account × EngineState :=
  match alookup budget_id st.budget_accounts_cache with
  | some accs => (accs, st)
  | none =>
    let accs := cfg.list_accounts budget_id
    (accs, { st with budget_accounts_cache := aset budget_id accs st.budget_accounts_cache })

/-- `_build_account_mapping` (ingestion_engine.py, lines 349-366).  For each
distinct trimmed non-empty `account_name` (sorted) the engine calls
`get_or_create_mapping(budget_id, name, accounts, store=state_store)` — a call
supplying the keyword argument `store`, which the callee's signature does not
accept, hence raising `TypeError` (see `callGetOrCreateMapping`).  Returns the
built lower-cased-name → account-id map together with the mappings-file
content (the file threading is unobservable behind the raising call). -/
def buildAccountMapping (df : DataFrame) (budget_id : String) (accounts : List Account)
    (fileMappings : List (String × String)) (pick : List Account → Account) :
    Except PyError (List (String × String) × List (String × String)) :=
  if accounts = [] ∨ ¬ df.hasAccountCol then .ok ([], fileMappings)
  else
    let uniqueNames :=
      sortedUniqueStr (((df.rows.filterMap (fun r => r.account_name)).map pyStrip).filter
        (fun s => s ≠ ""))
    go uniqueNames [] fileMappings
where
  go : List String → List (String × String) → List (String × String) →
      Except PyError (List (String × String) × List (String × String))
    | [], mapping, fm => .ok (mapping, fm)
    | name :: rest, mapping, fm =>
      match callGetOrCreateMapping ["store"] fm budget_id name accounts pick with
      | .error e => .error e
      | .ok (mappedId, fm2) =>
        let mapping2 :=
          if otruthy mappedId then aset (pyLower (pyStrip name)) (mappedId.getD "") mapping else mapping
        go rest mapping2 fm2

/-- Outcome of processing one owner group inside `_process_item`'s loop:
either a prepared batch (loop continues), or an early `return` after recording
a warning (which aborts the remaining groups AND discards `prepared_batches`),
or a Python exception escaping the loop. -/
inductive GroupStep where
  | prepared (ownerKey ownerLabel budgetId : String) (txns : List Transaction)
  | aborted (warning : String)
  | raised (e : PyError)
deriving DecidableEq, Repr

/-- Append a warning to an owner's summary entry, bump `skipped`, and record
the per-item failure reason — the common shape of every early-`return` branch
of `_process_item` (lines 226-267). -/
def recordGroupFailure (st : EngineState) (ownerKey itemId warning : String) : EngineState :=
  { st with
      owner_summary := amodify ownerKey
        (fun e => { e with warnings := e.warnings ++ [warning], skipped := e.skipped + 1 })
        st.owner_summary
      item_failures := aset itemId warning st.item_failures }

/-- The body of `_process_item`'s `for owner_label, owner_df in owner_groups`
loop (ingestion_engine.py, lines 216-269) for one group. -/
def processOwnerGroup (cfg : EngineCfg) (item : IngestionItem) (st : EngineState)
    (ownerLabel : String) (ownerDf : DataFrame) : EngineState × GroupStep :=
  let ownerKey := if ownerCacheKey ownerLabel = "" then ownerLabel else ownerCacheKey ownerLabel
  let touched :=
    amodify ownerKey
      (fun e => { e with
          label := ownerLabel
          sources := sinsert item.display_name e.sources
          messages := item.message_uids.foldl (fun acc u => sinsert u acc) e.messages
          parsed := e.parsed + 1 })
      (asetdefault ownerKey (initOwnerSummaryEntry ownerLabel) st.owner_summary)
  let st := { st with owner_summary := touched }
  let res := resolveBudgetForOwner cfg st ownerLabel
  let budgetOpt := res.1
  let st := res.2
  match pyOptStr budgetOpt with
  | none =>
    let w := "Missing budget mapping for " ++ item.display_name
    (recordGroupFailure st ownerKey item.item_id w, .aborted w)
  | some budget_id =>
    let acc := getAccountsForBudget cfg st budget_id
    let accounts := acc.1
    let st := acc.2
    if accounts = [] ∧ ¬ otruthy cfg.default_account_id then
      let w := "No YNAB accounts available for budget " ++ budget_id ++
        ". Set YNAB_ACCOUNT_ID or create an account."
      (recordGroupFailure st ownerKey item.item_id w, .aborted w)
    else
      match buildAccountMapping ownerDf budget_id accounts cfg.fileMappings cfg.pick_account with
      | .error e => (st, .raised e)
      | .ok (name_map, _) =>
        let missing :=
          if ownerDf.hasAccountCol then
            (dedupPreserve ((ownerDf.rows.filterMap (fun r => r.account_name)).map pyStrip)).filter
              (fun nm => alookup (pyLower (pyStrip nm)) name_map = none ∧ ¬ otruthy cfg.default_account_id)
          else []
        if missing ≠ [] then
          let w := "Missing account mapping for " ++ String.intercalate ", " missing
          (recordGroupFailure st ownerKey item.item_id w, .aborted w)
        else
          let txns := convert_to_ynab_format ownerDf cfg.default_account_id
            (if name_map = [] then none else some name_map)
          if txns = [] then
            let w := "No transactions ready after formatting: " ++ item.display_name
            (recordGroupFailure st ownerKey item.item_id w, .aborted w)
          else (st, .prepared ownerKey ownerLabel budget_id txns)

/-- Outcome of the whole group loop of `_process_item`. -/
inductive ItemOutcome where
  | completed (batches : List (String × String × String × List Transaction))
  | aborted (warning : String)
  | raised (e : PyError)
deriving DecidableEq, Repr

/-- The group loop of `_process_item` accumulating `prepared_batches`; an
early `return` (aborted) or an exception stops the loop, losing the
accumulator. -/
def processGroups (cfg : EngineCfg) (item : IngestionItem) :
    List (String × DataFrame) → EngineState →
    List (String × String × String × List Transaction) →
    EngineState × ItemOutcome
  | [], st, acc => (st, .completed acc.reverse)
  | (label, df) :: gs, st, acc =>
    match processOwnerGroup cfg item st label df with
    | (st2, .prepared k l b txns) => processGroups cfg item gs st2 ((k, l, b, txns) :: acc)
    | (st2, .aborted w) => (st2, .aborted w)
    | (st2, .raised e) => (st2, .raised e)

/-- The commit loop of `_process_item` (lines 271-279): extend each owner's
batch (creating it on first sight), bump `prepared`, and link the item with
its owner keys. -/
def commitBatches (itemId : String) :
    List (String × String × String × List Transaction) → EngineState → EngineState
  | [], st => st
  | (ownerKey, label, budgetId, txns) :: rest, st =>
    let batches := match alookup ownerKey st.owner_batches with
      | some b => aset ownerKey { b with transactions := b.transactions ++ txns } st.owner_batches
      | none => st.owner_batches ++ [(ownerKey, { label := label, budget_id := budgetId, transactions := txns })]
    let st2 := { st with
      owner_batches := batches
      owner_summary := amodify ownerKey
        (fun e => { e with prepared := e.prepared + txns.length }) st.owner_summary
      owner_item_map := amodify ownerKey (fun l => sinsert itemId l)
        (asetdefault ownerKey [] st.owner_item_map)
      item_owner_map := amodify itemId (fun l => sinsert ownerKey l)
        (asetdefault itemId [] st.item_owner_map) }
    commitBatches itemId rest st2

/-- `IngestionEngine._process_item` (lines 212-279).  Returns the new engine
state together with a Python exception, if one escaped (state mutations made
before the raise survive, as in Python). -/
def processItem (cfg : EngineCfg) (st : EngineState) (item : IngestionItem) :
    EngineState × Option PyError :=
  let groups := groupDfByOwner item.dataframe item.fallback_owner
  match processGroups cfg item groups st [] with
  | (st1, .completed batches) => (commitBatches item.item_id batches st1, none)
  | (st1, .aborted _) => (st1, none)
  | (st1, .raised e) => (st1, some e)

/-- `IngestionEngine.add_items` (lines 117-125): register each item then
process it; an exception escaping `_process_item` propagates to the caller
(source callbacks are not modelled — they return no data to the engine). -/
def addItems (cfg : EngineCfg) (st : EngineState) : List IngestionItem →
    EngineState × Option PyError
  | [] => (st, none)
  | item :: rest =>
    let st1 := { st with item_registry := aset item.item_id item st.item_registry }
    match processItem cfg st1 item with
    | (st2, none) => addItems cfg st2 rest
    | (st2, some e) => (st2, some e)

/-- `IngestionEngine.record_source_warning` (lines 127-143). -/
def recordSourceWarning (st : EngineState) (label display_name : String)
    (uids : List String) (warning : String) : EngineState :=
  let ownerKey := if ownerCacheKey label = "" then label else ownerCacheKey label
  let touched :=
    amodify ownerKey
      (fun e => { e with
          label := label
          sources := sinsert display_name e.sources
          messages := uids.foldl (fun acc u => sinsert u acc) e.messages
          skipped := e.skipped + 1
          warnings := e.warnings ++ [warning] })
      (asetdefault ownerKey (initOwnerSummaryEntry label) st.owner_summary)
  { st with owner_summary := touched }

/-- The upload loop of `flush` (lines 150-171), threading the set of
successful owner keys and the list of performed upload calls
`(budget_id, transactions)`. -/
def flushBatches (cfg : EngineCfg) :
    List (String × Batch) → EngineState → List String → List (String × List Transaction) →
    EngineState × List String × List (String × List Transaction)
  | [], st, succ, ups => (st, succ, ups)
  | (k, b) :: rest, st, succ, ups =>
    if b.transactions = [] then
      let summary2 := amodify k
        (fun e => { e with warnings := e.warnings ++ ["No transactions prepared for upload."] })
        st.owner_summary
      flushBatches cfg rest { st with owner_summary := summary2 } succ ups
    else if cfg.upload_ok b.transactions b.budget_id then
      let summary2 := amodify k
        (fun e => { e with uploaded := e.uploaded + b.transactions.length }) st.owner_summary
      flushBatches cfg rest { st with owner_summary := summary2 } (sinsert k succ)
        (ups ++ [(b.budget_id, b.transactions)])
    else
      let summary2 := amodify k
        (fun e => { e with warnings := e.warnings ++ ["YNAB upload failed."] }) st.owner_summary
      let failures2 := ((alookup k st.owner_item_map).getD []).foldl
        (fun fs iid => aset iid "YNAB upload failed." fs) st.item_failures
      flushBatches cfg rest { st with owner_summary := summary2, item_failures := failures2 } succ
        (ups ++ [(b.budget_id, b.transactions)])

/-- The classification loop of `flush` (lines 173-185): an item already in
`_item_failures` is failed with that reason; otherwise it succeeds iff its
owner-key set is non-empty and contained in the successful keys, else it is
failed as "Owner batch failed.". -/
def classifyItems (succ : List String) (iom : List (String × List String)) :
    List (String × IngestionItem) → List (String × String) →
    List IngestionItem × List (IngestionItem × String) × List (String × String)
  | [], failures => ([], [], failures)
  | (iid, item) :: rest, failures =>
    match alookup iid failures with
    | some r =>
      let out := classifyItems succ iom rest failures
      (out.1, (item, r) :: out.2.1, out.2.2)
    | none =>
      let keys := (alookup iid iom).getD []
      if keys ≠ [] ∧ keys.all (fun k => succ.contains k) then
        let out := classifyItems succ iom rest failures
        (item :: out.1, out.2.1, out.2.2)
      else
        let out := classifyItems succ iom rest (aset iid "Owner batch failed." failures)
        (out.1, (item, "Owner batch failed.") :: out.2.1, out.2.2)

/-- Output of one `flush` call: the engine state afterwards, the returned
result, and the sequence of `upload_transactions` calls made. -/
structure FlushOut where
  state : EngineState
  result : IngestionResult
  uploads : List (String × List Transaction)
deriving Repr

/-- `IngestionEngine.flush` (lines 145-199).  A second call short-circuits on
the `_flushed` flag and returns the cached result (or an empty result if none
was cached).  Success/failure callbacks are not modelled — they return nothing
to the engine. -/
def flush (cfg : EngineCfg) (st : EngineState) : FlushOut :=
  if st.flushed then
    { state := st, result := st.result.getD { successful_items := [], failed_items := [] },
      uploads := [] }
  else
    let out1 := flushBatches cfg st.owner_batches st [] []
    let out2 := classifyItems out1.2.1 out1.1.item_owner_map out1.1.item_registry
      out1.1.item_failures
    let result : IngestionResult := { successful_items := out2.1, failed_items := out2.2.1 }
    { state := { out1.1 with item_failures := out2.2.2, flushed := true, result := some result }
      result := result
      uploads := out1.2.2 }

/-! ## Concrete fixtures used by counterexamples and witnesses -/

/-- An engine configuration with an empty budget list (so interactive budget
selection returns `None`), a default account id, and one YNAB account per
budget. -/
def cfg0 : EngineCfg :=
  { budgets := []
    default_budget_id := none
    default_account_id := some "acc-default"
    force_budget_id := none
    list_accounts := fun _ => [{ id := "acc-1", name := "Checking" }]
    upload_ok := fun _ _ => true
    choose_budget := fun bs _ => (bs.headD { id := "", name := "" }).id
    pick_account := fun accs => accs.headD { id := "", name := "" }
    fileMappings := [] }

/-- A state store holding a persisted owner→budget mapping for `alice` only. -/
def store0 : EmailStateStore :=
  { data := { mailboxes := [], owner_budget := [("alice", "b1")], account_mappings := [] }
    dirty := false }

def st0 : EngineState := initEngineState (some store0)

def rowAlice : Row :=
  { owner_name := some "Alice", account_name := none, date := "2025-01-01", amount := 100,
    payee_name := some "Shop", memo := "", status := "交易成功" }

def rowBob : Row :=
  { owner_name := some "Bob", account_name := none, date := "2025-01-02", amount := 200,
    payee_name := some "Cafe", memo := "", status := "" }

/-- A two-owner item: Alice has a persisted budget mapping in `store0`, Bob
has none (and `cfg0.budgets` is empty, so prompting cannot resolve one). -/
def item0 : IngestionItem :=
  { item_id := "item1", display_name := "alice.csv"
    dataframe := { hasOwnerCol := true, hasAccountCol := false, rows := [rowAlice, rowBob] }
    fallback_owner := "local", source := "local", message_uids := [] }

def rowAcct : Row :=
  { owner_name := some "Alice", account_name := some "My Bank", date := "2025-01-01",
    amount := 100, payee_name := some "Shop", memo := "", status := "" }

/-- An item whose table carries an `account_name` column with a real value —
the input that drives the engine into `_build_account_mapping`'s
`get_or_create_mapping(..., store=...)` call. -/
def item1 : IngestionItem :=
  { item_id := "item2", display_name := "bank.csv"
    dataframe := { hasOwnerCol := true, hasAccountCol := true, rows := [rowAcct] }
    fallback_owner := "local", source := "local", message_uids := [] }

def itemA : IngestionItem :=
  { item_id := "i1", display_name := "shared.csv"
    dataframe := { hasOwnerCol := false, hasAccountCol := false, rows := [] }
    fallback_owner := "x", source := "local", message_uids := [] }

def itemB : IngestionItem :=
  { item_id := "i2", display_name := "solo.csv"
    dataframe := { hasOwnerCol := false, hasAccountCol := false, rows := [] }
    fallback_owner := "x", source := "local", message_uids := [] }

def txn1 : Transaction :=
  { account_id := some "a", date := "d", amount := 1, payee_name := "p", memo := "",
    import_id := "i", cleared := "cleared" }

/-- An engine state right before `flush`: item `i1` contributed to the
`alice` and `bob` batches, item `i2` only to `alice`. -/
def stC : EngineState :=
  { owner_budget_cache := [], budget_accounts_cache := []
    owner_summary := [("alice", initOwnerSummaryEntry "alice"), ("bob", initOwnerSummaryEntry "bob")]
    owner_batches := [("alice", { label := "alice", budget_id := "b1", transactions := [txn1] }),
                      ("bob", { label := "bob", budget_id := "b2", transactions := [txn1] })]
    owner_item_map := [("alice", ["i1", "i2"]), ("bob", ["i1"])]
    item_owner_map := [("i1", ["alice", "bob"]), ("i2", ["alice"])]
    item_registry := [("i1", itemA), ("i2", itemB)]
    item_failures := [], flushed := false, result := none, store := none }

/-- A client whose uploads succeed for budget `b1` and fail for `b2`. -/
def cfgC : EngineCfg :=
  { cfg0 with upload_ok := fun _ bid => bid = "b1" }

/-! ## Association-list lemmas -/

lemma alookup_aset_self {β : Type} (k : String) (v : β) (l : List (String × β)) :
    alookup k (aset k v l) = some v := by
  induction l with
  | nil => simp [aset, alookup]
  | cons p rest ih =>
    obtain ⟨k2, v2⟩ := p
    by_cases h : k2 = k <;> simp [aset, alookup, h, ih]

lemma alookup_aset_other {β : Type} {k k2 : String} (v : β) (l : List (String × β))
    (h : k2 ≠ k) : alookup k2 (aset k v l) = alookup k2 l := by
  induction l with
  | nil => simp [aset, alookup, Ne.symm h]
  | cons p rest ih =>
    obtain ⟨k3, v3⟩ := p
    by_cases h3 : k3 = k
    · subst h3; simp [aset, alookup, Ne.symm h]
    · simp [aset, alookup, h3, ih]

/-! ## State-shape lemmas for the ingestion engine -/

/-- Budget resolution only touches the per-run budget cache and the state
store. -/
lemma resolve_shape (cfg : EngineCfg) (st : EngineState) (o : String) :
    ∃ r c s2, resolveBudgetForOwner cfg st o =
      (r, { st with owner_budget_cache := c, store := s2 }) := by
  unfold resolveBudgetForOwner
  dsimp only
  repeat' split
  all_goals exact ⟨_, _, _, rfl⟩

/-- Account listing only touches the accounts cache. -/
lemma accounts_shape (cfg : EngineCfg) (st : EngineState) (b : String) :
    ∃ r c, getAccountsForBudget cfg st b = (r, { st with budget_accounts_cache := c }) := by
  unfold getAccountsForBudget
  repeat' split
  all_goals exact ⟨_, _, rfl⟩

lemma resolve_batches (cfg : EngineCfg) (st : EngineState) (o : String) :
    (resolveBudgetForOwner cfg st o).2.owner_batches = st.owner_batches := by
  obtain ⟨r, c, s2, h⟩ := resolve_shape cfg st o
  rw [h]

lemma accounts_batches (cfg : EngineCfg) (st : EngineState) (b : String) :
    (getAccountsForBudget cfg st b).2.owner_batches = st.owner_batches := by
  obtain ⟨r, c, h⟩ := accounts_shape cfg st b
  rw [h]

/-- Processing one owner group never touches the accumulated owner batches
(batches are only extended by the commit loop after all groups succeeded). -/
lemma pog_batches (cfg : EngineCfg) (item : IngestionItem) (st : EngineState)
    (l : String) (df : DataFrame) :
    (processOwnerGroup cfg item st l df).1.owner_batches = st.owner_batches := by
  unfold processOwnerGroup recordGroupFailure
  dsimp only
  repeat' split
  all_goals simp [resolve_batches, accounts_batches]

/-- An aborted owner group records its warning as the item's failure reason. -/
lemma pog_abort (cfg : EngineCfg) (item : IngestionItem) (st : EngineState)
    (l : String) (df : DataFrame) (w : String) :
    (processOwnerGroup cfg item st l df).2 = .aborted w →
    alookup item.item_id (processOwnerGroup cfg item st l df).1.item_failures = some w := by
  unfold processOwnerGroup recordGroupFailure
  dsimp only
  repeat' split
  all_goals intro h
  all_goals first
    | (cases h; simp [alookup_aset_self])
    | simp at h

/-- The group loop of `_process_item` never touches the owner batches. -/
lemma pgs_batches (cfg : EngineCfg) (item : IngestionItem) (gs : List (String × DataFrame)) :
    ∀ st acc, (processGroups cfg item gs st acc).1.owner_batches = st.owner_batches := by
  induction gs with
  | nil => intro st acc; simp [processGroups]
  | cons g gs ih =>
    intro st acc
    obtain ⟨l, df⟩ := g
    unfold processGroups
    split
    all_goals rename_i heq
    all_goals try rw [ih]
    all_goals
      have hb := pog_batches cfg item st l df
    all_goals rw [heq] at hb
    all_goals simpa using hb

/-- If the group loop aborts with warning `w`, the item carries failure reason
`w` afterwards. -/
lemma pgs_abort (cfg : EngineCfg) (item : IngestionItem) (gs : List (String × DataFrame))
    (w : String) :
    ∀ st acc, (processGroups cfg item gs st acc).2 = .aborted w →
      alookup item.item_id (processGroups cfg item gs st acc).1.item_failures = some w := by
  induction gs with
  | nil => intro st acc h; simp [processGroups] at h
  | cons g gs ih =>
    intro st acc
    obtain ⟨l, df⟩ := g
    unfold processGroups
    split
    all_goals rename_i heq
    all_goals intro h
    · exact ih _ _ h
    · cases h
      have := pog_abort cfg item st l df w (by rw [heq])
      rw [heq] at this
      simpa using this
    · simp at h

/-! ## Claim C1 -/

/-- C1 (corrected), counterexample to the claim as stated: in the spec's
two-owner scenario — Alice with a persisted budget mapping, Bob without one
and no way to resolve it — `_process_item` aborts the WHOLE item on Bob's
failure: Alice's prepared transactions are discarded together with Bob's
(`_owner_batches` stays empty), contradicting "the other owners' shares of
the same item are still processed and their prepared transactions are still
appended to their owner batches". -/
theorem process_item_bob_failure_discards_alice_share :
    (processItem cfg0 st0 item0).1.owner_batches = [] ∧
    alookup "item1" (processItem cfg0 st0 item0).1.item_failures =
      some "Missing budget mapping for alice.csv" := by decide

/-- C1 (corrected, amended claim): when any owner group of an item fails
(missing budget mapping, missing account mapping, no accounts, or nothing to
upload), `_process_item` aborts the entire item: no owner batch receives any
share of the item (the batches are exactly as before), and the item is marked
failed with the warning of the failing owner group. -/
theorem process_item_group_failure_aborts_entire_item (cfg : EngineCfg) (st : EngineState)
    (item : IngestionItem) (w : String)
    (h : (processGroups cfg item (groupDfByOwner item.dataframe item.fallback_owner) st []).2
          = .aborted w) :
    (processItem cfg st item).1.owner_batches = st.owner_batches ∧
    alookup item.item_id (processItem cfg st item).1.item_failures = some w := by
  unfold processItem
  dsimp only
  rcases hpg : processGroups cfg item (groupDfByOwner item.dataframe item.fallback_owner) st []
    with ⟨st1, out⟩
  rw [hpg] at h
  dsimp at h
  cases out with
  | completed bs => simp at h
  | aborted w2 =>
    cases h
    refine ⟨?_, ?_⟩
    · have hb := pgs_batches cfg item (groupDfByOwner item.dataframe item.fallback_owner) st []
      rw [hpg] at hb
      simpa using hb
    · have hf := pgs_abort cfg item (groupDfByOwner item.dataframe item.fallback_owner) w st []
        (by rw [hpg])
      rw [hpg] at hf
      simpa using hf
  | raised e => simp at h

/-- C1 witness: the amended theorem applied at the concrete Alice/Bob item. -/
theorem process_item_group_failure_aborts_entire_item_witness :
    (processGroups cfg0 item0 (groupDfByOwner item0.dataframe item0.fallback_owner) st0 []).2
        = .aborted "Missing budget mapping for alice.csv" ∧
    ((processItem cfg0 st0 item0).1.owner_batches = st0.owner_batches ∧
     alookup item0.item_id (processItem cfg0 st0 item0).1.item_failures =
       some "Missing budget mapping for alice.csv") :=
  ⟨by decide,
   process_item_group_failure_aborts_entire_item cfg0 st0 item0
     "Missing budget mapping for alice.csv" (by decide)⟩

/-! ## Claim C4 -/

/-- C4 (code_bug): the engine's account resolution
(`_build_account_mapping`) calls `get_or_create_mapping(budget_id, name,
accounts, store=state_store)`, but the signature of `get_or_create_mapping`
(ynabbridge/account_mapping.py line 49) has no `store` parameter, so for any
owner sub-table carrying a real `account_name` value and a non-empty accounts
list the call raises `TypeError` instead of consulting the state store's
`account_mappings` (which `EmailStateStore.get_account_mapping` /
`set_account_mapping` would serve, and which nothing else calls). -/
theorem engine_account_resolution_raises_type_error :
    buildAccountMapping item1.dataframe "b1" [{ id := "acc-1", name := "Checking" }] []
      cfg0.pick_account =
    .error (.typeError "get_or_create_mapping() got an unexpected keyword argument") := rfl

/-! ## Claim C5 -/

/-- C5 (code_bug): processing an item whose table has an `account_name`
column with a non-empty value reaches the `store=` keyword call inside
account resolution, and the resulting `TypeError` escapes `_process_item` and
`add_items` to the caller — contradicting the policy that no exception
propagates past item processing. -/
theorem add_items_type_error_escapes :
    (addItems cfg0 st0 [item1]).2 =
      some (.typeError "get_or_create_mapping() got an unexpected keyword argument") := by
  decide

/-! ## Claim C9 : state store save/reload -/

/-- C9: after a dirty save, reloading the written file yields a store whose
`processed_uids` (per mailbox key), `owner_budget`, and `account_mappings`
agree with the saved store on every query. -/
theorem state_store_save_reload_roundtrip (s : EmailStateStore) (prev : Option StoreFile)
    (h : s.dirty = true) :
    (∀ mk uid, uid ∈ (EmailStateStore.loadFrom (s.save prev).2).get_processed_uids mk ↔
        uid ∈ s.get_processed_uids mk) ∧
    (∀ owner, (EmailStateStore.loadFrom (s.save prev).2).get_owner_budget owner =
        s.get_owner_budget owner) ∧
    (∀ b a, (EmailStateStore.loadFrom (s.save prev).2).get_account_mapping b a =
        s.get_account_mapping b a) := by
  simp [EmailStateStore.save, h, EmailStateStore.loadFrom, EmailStateStore.get_processed_uids,
    EmailStateStore.get_owner_budget, EmailStateStore.get_account_mapping]

/-- A dirty store with one entry in each section. -/
def storeW : EmailStateStore :=
  { data := { mailboxes := [("imap|user", ["1", "2"])], owner_budget := [("alice", "b1")],
              account_mappings := [("b1:my bank", "acc-1")] }
    dirty := true }

/-- C9 witness: the roundtrip theorem applied to a concrete dirty store. -/
theorem state_store_save_reload_roundtrip_witness :
    storeW.dirty = true ∧
    ((∀ mk uid, uid ∈ (EmailStateStore.loadFrom (storeW.save none).2).get_processed_uids mk ↔
        uid ∈ storeW.get_processed_uids mk) ∧
     (∀ owner, (EmailStateStore.loadFrom (storeW.save none).2).get_owner_budget owner =
        storeW.get_owner_budget owner) ∧
     (∀ b a, (EmailStateStore.loadFrom (storeW.save none).2).get_account_mapping b a =
        storeW.get_account_mapping b a)) :=
  ⟨rfl, state_store_save_reload_roundtrip storeW none rfl⟩

/-! ## Claim C10 : forced budget id bypasses the store -/

lemma accounts_store (cfg : EngineCfg) (st : EngineState) (b : String) :
    (getAccountsForBudget cfg st b).2.store = st.store := by
  obtain ⟨r, c, h⟩ := accounts_shape cfg st b
  rw [h]

/-- With a forced budget id, resolution returns the forced id unconditionally
and leaves the store untouched — note the result does not depend on the
store's contents at all (the statement holds for every `st`). -/
lemma resolve_force (cfg : EngineCfg) (st : EngineState) (o f : String)
    (hf : pyOptStr cfg.force_budget_id = some f) :
    (resolveBudgetForOwner cfg st o).1 = some f ∧
    (resolveBudgetForOwner cfg st o).2.store = st.store := by
  unfold resolveBudgetForOwner
  dsimp only
  rw [hf]
  exact ⟨rfl, rfl⟩

lemma pog_store_force (cfg : EngineCfg) (item : IngestionItem) (st : EngineState)
    (l : String) (df : DataFrame) (f : String)
    (hf : pyOptStr cfg.force_budget_id = some f) :
    (processOwnerGroup cfg item st l df).1.store = st.store := by
  unfold processOwnerGroup recordGroupFailure
  dsimp only
  repeat' split
  all_goals simp [(resolve_force cfg _ _ f hf).2, accounts_store]

lemma pgs_store_force (cfg : EngineCfg) (item : IngestionItem)
    (gs : List (String × DataFrame)) (f : String)
    (hf : pyOptStr cfg.force_budget_id = some f) :
    ∀ st acc, (processGroups cfg item gs st acc).1.store = st.store := by
  induction gs with
  | nil => intro st acc; simp [processGroups]
  | cons g gs ih =>
    intro st acc
    obtain ⟨l, df⟩ := g
    unfold processGroups
    split
    all_goals rename_i heq
    all_goals try rw [ih]
    all_goals
      have hb := pog_store_force cfg item st l df f hf
    all_goals rw [heq] at hb
    all_goals simpa using hb

lemma commit_store (itemId : String) (bs : List (String × String × String × List Transaction)) :
    ∀ st, (commitBatches itemId bs st).store = st.store := by
  induction bs with
  | nil => intro st; simp [commitBatches]
  | cons b bs ih =>
    intro st
    obtain ⟨k, l, bid, txns⟩ := b
    unfold commitBatches
    dsimp only
    rw [ih]

lemma process_item_store_force (cfg : EngineCfg) (st : EngineState) (item : IngestionItem)
    (f : String) (hf : pyOptStr cfg.force_budget_id = some f) :
    (processItem cfg st item).1.store = st.store := by
  unfold processItem
  dsimp only
  rcases hpg : processGroups cfg item (groupDfByOwner item.dataframe item.fallback_owner) st []
    with ⟨st1, out⟩
  have hs := pgs_store_force cfg item (groupDfByOwner item.dataframe item.fallback_owner) f hf st []
  rw [hpg] at hs
  cases out with
  | completed bs => simpa [commit_store] using hs
  | aborted w => simpa using hs
  | raised e => simpa using hs

lemma add_items_store_force (cfg : EngineCfg) (items : List IngestionItem)
    (f : String) (hf : pyOptStr cfg.force_budget_id = some f) :
    ∀ st, (addItems cfg st items).1.store = st.store := by
  induction items with
  | nil => intro st; simp [addItems]
  | cons item rest ih =>
    intro st
    unfold addItems
    dsimp only
    rcases hpi : processItem cfg
        { st with item_registry := aset item.item_id item st.item_registry } item with ⟨st2, e⟩
    have hs := process_item_store_force cfg
      { st with item_registry := aset item.item_id item st.item_registry } item f hf
    rw [hpi] at hs
    cases e with
    | none => rw [ih]; simpa using hs
    | some e2 => simpa using hs

/-- C10: with a (truthy) forced budget id configured, budget resolution
returns the forced id for every owner and leaves the state store exactly as
it was (the result is also independent of the store's contents, so the
persisted owner_budget document is neither read nor written); consequently a
whole `add_items` run leaves the store untouched. -/
theorem force_budget_resolution_bypasses_store (cfg : EngineCfg) (f : String)
    (hf : pyOptStr cfg.force_budget_id = some f) :
    (∀ st o, (resolveBudgetForOwner cfg st o).1 = some f ∧
             (resolveBudgetForOwner cfg st o).2.store = st.store) ∧
    (∀ st items, (addItems cfg st items).1.store = st.store) :=
  ⟨fun st o => resolve_force cfg st o f hf,
   fun st items => add_items_store_force cfg items f hf st⟩

/-- A configuration forcing budget `bF`. -/
def cfgF : EngineCfg := { cfg0 with force_budget_id := some "bF" }

/-- C10 witness: the theorem applied at a concrete forced configuration. -/
theorem force_budget_resolution_bypasses_store_witness :
    pyOptStr cfgF.force_budget_id = some "bF" ∧
    ((∀ st o, (resolveBudgetForOwner cfgF st o).1 = some "bF" ∧
              (resolveBudgetForOwner cfgF st o).2.store = st.store) ∧
     (∀ st items, (addItems cfgF st items).1.store = st.store)) :=
  ⟨rfl, force_budget_resolution_bypasses_store cfgF "bF" rfl⟩

/-! ## Claims C2 and C3 : flush semantics -/

lemma flushBatches_uploads (cfg : EngineCfg) (bs : List (String × Batch)) :
    ∀ st succ ups, (flushBatches cfg bs st succ ups).2.2 =
      ups ++ (bs.filter (fun kb => !(kb.2.transactions.isEmpty))).map
        (fun kb => (kb.2.budget_id, kb.2.transactions)) := by
  induction bs with
  | nil => intro st succ ups; simp [flushBatches]
  | cons kb bs ih =>
    intro st succ ups
    obtain ⟨k, b⟩ := kb
    unfold flushBatches
    dsimp only
    by_cases hb : b.transactions = []
    · simp [hb, ih]
    · rw [if_neg hb]
      by_cases hu : cfg.upload_ok b.transactions b.budget_id
      · simp [hu, ih, hb]
      · simp [hu, ih, hb]

lemma flush_state_flushed (cfg : EngineCfg) (st : EngineState) (h : st.flushed = false) :
    (flush cfg st).state.flushed = true ∧
    (flush cfg st).state.result = some (flush cfg st).result := by
  unfold flush
  simp [h]

lemma flush_when_flushed (cfg : EngineCfg) (st2 : EngineState) (h : st2.flushed = true) :
    flush cfg st2 =
      { state := st2, result := st2.result.getD { successful_items := [], failed_items := [] },
        uploads := [] } := by
  unfold flush
  rw [if_pos h]

/-- C3: on an unflushed engine, `flush` calls `upload_transactions` exactly
once per non-empty owner batch (and never for an empty batch), and a second
`flush` performs no upload, returns the cached result of the first call, and
leaves the engine state unchanged (so every later call behaves identically). -/
theorem flush_uploads_once_then_cached (cfg : EngineCfg) (st : EngineState)
    (h : st.flushed = false) :
    (flush cfg st).uploads =
      (st.owner_batches.filter (fun kb => !(kb.2.transactions.isEmpty))).map
        (fun kb => (kb.2.budget_id, kb.2.transactions)) ∧
    (flush cfg (flush cfg st).state).uploads = [] ∧
    (flush cfg (flush cfg st).state).result = (flush cfg st).result ∧
    (flush cfg (flush cfg st).state).state = (flush cfg st).state := by
  obtain ⟨h1, h2⟩ := flush_state_flushed cfg st h
  rw [flush_when_flushed cfg _ h1]
  refine ⟨?_, rfl, ?_, rfl⟩
  · unfold flush
    simp [h, flushBatches_uploads]
  · rw [h2]
    rfl



lemma mem_sinsert (x y : String) (l : List String) :
    y ∈ sinsert x l ↔ y ∈ l ∨ y = x := by
  unfold sinsert
  by_cases h : l.contains x
  · rw [if_pos h]
    constructor
    · exact fun hy => Or.inl hy
    · rintro (hy | hy)
      · exact hy
      · subst hy
        exact List.elem_iff.mp h
  · rw [if_neg h]
    simp

lemma alookup_of_mem_nodup {β : Type} {l : List (String × β)} {k : String} {v : β}
    (hnd : (l.map Prod.fst).Nodup) (hm : (k, v) ∈ l) : alookup k l = some v := by
  induction l with
  | nil => simp at hm
  | cons p rest ih =>
    obtain ⟨k2, v2⟩ := p
    rw [List.map_cons, List.nodup_cons] at hnd
    obtain ⟨hnotin, hnd2⟩ := hnd
    rcases List.mem_cons.mp hm with hm2 | hm2
    · cases hm2
      simp [alookup]
    · have hk : k2 ≠ k := by
        intro he
        subst he
        exact hnotin (List.mem_map.mpr ⟨(k2, v), hm2, rfl⟩)
      simp only [alookup, if_neg hk]
      exact ih hnd2 hm2

lemma mem_of_alookup {β : Type} {l : List (String × β)} {k : String} {v : β}
    (h : alookup k l = some v) : (k, v) ∈ l := by
  induction l with
  | nil => simp [alookup] at h
  | cons p rest ih =>
    obtain ⟨k2, v2⟩ := p
    by_cases hk : k2 = k
    · subst hk
      have hv : some v2 = some v := by simpa [alookup] using h
      cases hv
      exact List.mem_cons_self _ _
    · simp only [alookup, if_neg hk] at h
      exact List.mem_cons_of_mem _ (ih h)

lemma aset_foldl_const (v : String) (l : List String) :
    ∀ (fs : List (String × String)) (id : String),
      alookup id (l.foldl (fun fs iid => aset iid v fs) fs) =
        if id ∈ l then some v else alookup id fs := by
  induction l with
  | nil => intro fs id; simp
  | cons x l ih =>
    intro fs id
    simp only [List.foldl_cons, ih]
    by_cases hx : id = x
    · subst hx
      by_cases hm : id ∈ l <;> simp [hm, alookup_aset_self]
    · by_cases hm : id ∈ l <;>
        simp [hm, alookup_aset_other _ _ hx, hx, Ne.symm hx]



lemma flushBatches_fields (cfg : EngineCfg) (bs : List (String × Batch)) :
    ∀ st succ ups,
      (flushBatches cfg bs st succ ups).1.item_registry = st.item_registry ∧
      (flushBatches cfg bs st succ ups).1.item_owner_map = st.item_owner_map ∧
      (flushBatches cfg bs st succ ups).1.owner_item_map = st.owner_item_map ∧
      (flushBatches cfg bs st succ ups).1.owner_batches = st.owner_batches := by
  induction bs with
  | nil => intro st succ ups; simp [flushBatches]
  | cons kb bs ih =>
    intro st succ ups
    obtain ⟨k0, b0⟩ := kb
    unfold flushBatches
    dsimp only
    repeat' split
    all_goals
      exact ⟨(ih _ _ _).1, (ih _ _ _).2.1, (ih _ _ _).2.2.1, (ih _ _ _).2.2.2⟩

lemma flushBatches_succ_iff (cfg : EngineCfg) (bs : List (String × Batch)) :
    ∀ st succ ups k,
      (k ∈ (flushBatches cfg bs st succ ups).2.1 ↔
        k ∈ succ ∨ ∃ b, (k, b) ∈ bs ∧ b.transactions ≠ [] ∧
          cfg.upload_ok b.transactions b.budget_id = true) := by
  induction bs with
  | nil => intro st succ ups k; simp [flushBatches]
  | cons kb bs ih =>
    intro st succ ups k
    obtain ⟨k0, b0⟩ := kb
    unfold flushBatches
    dsimp only
    by_cases hb : b0.transactions = []
    · rw [if_pos hb, ih]
      constructor
      · rintro (hs | ⟨b, hm, hne, hok⟩)
        · exact Or.inl hs
        · exact Or.inr ⟨b, List.mem_cons_of_mem _ hm, hne, hok⟩
      · rintro (hs | ⟨b, hm, hne, hok⟩)
        · exact Or.inl hs
        · rcases List.mem_cons.mp hm with he | hm2
          · cases he
            exact absurd hb hne
          · exact Or.inr ⟨b, hm2, hne, hok⟩
    · rw [if_neg hb]
      by_cases hu : cfg.upload_ok b0.transactions b0.budget_id
      · rw [if_pos hu, ih, mem_sinsert]
        constructor
        · rintro ((hs | he) | ⟨b, hm, hne, hok⟩)
          · exact Or.inl hs
          · subst he
            exact Or.inr ⟨b0, List.mem_cons_self _ _, hb, hu⟩
          · exact Or.inr ⟨b, List.mem_cons_of_mem _ hm, hne, hok⟩
        · rintro (hs | ⟨b, hm, hne, hok⟩)
          · exact Or.inl (Or.inl hs)
          · rcases List.mem_cons.mp hm with he | hm2
            · cases he
              exact Or.inl (Or.inr rfl)
            · exact Or.inr ⟨b, hm2, hne, hok⟩
      · rw [if_neg hu, ih]
        constructor
        · rintro (hs | ⟨b, hm, hne, hok⟩)
          · exact Or.inl hs
          · exact Or.inr ⟨b, List.mem_cons_of_mem _ hm, hne, hok⟩
        · rintro (hs | ⟨b, hm, hne, hok⟩)
          · exact Or.inl hs
          · rcases List.mem_cons.mp hm with he | hm2
            · cases he
              exact absurd hok hu
            · exact Or.inr ⟨b, hm2, hne, hok⟩



/-- The condition under which the upload loop of `flush` marks item `id`
failed: some batch of `bs` with transactions fails its upload and `id` is
registered under that batch's owner key. -/
def uploadFailMark (cfg : EngineCfg) (oim : List (String × List String))
    (bs : List (String × Batch)) (id : String) : Prop :=
  ∃ k b, (k, b) ∈ bs ∧ b.transactions ≠ [] ∧
    cfg.upload_ok b.transactions b.budget_id = false ∧ id ∈ (alookup k oim).getD []

lemma flushBatches_failures (cfg : EngineCfg) (bs : List (String × Batch)) :
    ∀ st succ ups id,
      (uploadFailMark cfg st.owner_item_map bs id →
        alookup id (flushBatches cfg bs st succ ups).1.item_failures =
          some "YNAB upload failed.") ∧
      (¬ uploadFailMark cfg st.owner_item_map bs id →
        alookup id (flushBatches cfg bs st succ ups).1.item_failures =
          alookup id st.item_failures) := by
  induction bs with
  | nil =>
    intro st succ ups id
    constructor
    · rintro ⟨k, b, hm, -⟩
      simp at hm
    · intro _
      simp [flushBatches]
  | cons kb bs ih =>
    intro st succ ups id
    obtain ⟨k0, b0⟩ := kb
    unfold flushBatches
    dsimp only
    by_cases hb : b0.transactions = []
    · rw [if_pos hb]
      constructor
      · rintro ⟨k, b, hm, hne, hfail, hmem⟩
        rcases List.mem_cons.mp hm with he | hm2
        · cases he
          exact absurd hb hne
        · exact (ih _ _ _ id).1 ⟨k, b, hm2, hne, hfail, hmem⟩
      · intro hn
        refine (ih _ _ _ id).2 ?_
        rintro ⟨k, b, hm2, hne, hfail, hmem⟩
        exact hn ⟨k, b, List.mem_cons_of_mem _ hm2, hne, hfail, hmem⟩
    · rw [if_neg hb]
      by_cases hu : cfg.upload_ok b0.transactions b0.budget_id
      · rw [if_pos hu]
        constructor
        · rintro ⟨k, b, hm, hne, hfail, hmem⟩
          rcases List.mem_cons.mp hm with he | hm2
          · cases he
            rw [hu] at hfail
            cases hfail
          · exact (ih _ _ _ id).1 ⟨k, b, hm2, hne, hfail, hmem⟩
        · intro hn
          refine (ih _ _ _ id).2 ?_
          rintro ⟨k, b, hm2, hne, hfail, hmem⟩
          exact hn ⟨k, b, List.mem_cons_of_mem _ hm2, hne, hfail, hmem⟩
      · rw [if_neg hu]
        have hu2 : cfg.upload_ok b0.transactions b0.budget_id = false := by
          simpa using hu
        set st2 : EngineState :=
          { st with
              owner_summary := amodify k0
                (fun e => { e with warnings := e.warnings ++ ["YNAB upload failed."] })
                st.owner_summary
              item_failures := ((alookup k0 st.owner_item_map).getD []).foldl
                (fun fs iid => aset iid "YNAB upload failed." fs) st.item_failures } with hst2
        have hoim : st2.owner_item_map = st.owner_item_map := by rw [hst2]
        have hfail2 : alookup id st2.item_failures =
            (if id ∈ (alookup k0 st.owner_item_map).getD [] then some "YNAB upload failed."
             else alookup id st.item_failures) := by
          rw [hst2]
          exact aset_foldl_const _ _ _ _
        by_cases hl : id ∈ (alookup k0 st.owner_item_map).getD []
        · constructor
          · intro _
            by_cases hmk : uploadFailMark cfg st.owner_item_map bs id
            · exact (ih st2 _ _ id).1 (by rw [hoim]; exact hmk)
            · refine ((ih st2 _ _ id).2 (by rw [hoim]; exact hmk)).trans ?_
              rw [hfail2, if_pos hl]
          · intro hn
            exact absurd ⟨k0, b0, List.mem_cons_self _ _, hb, hu2, hl⟩ hn
        · constructor
          · rintro ⟨k, b, hm, hne, hfail, hmem⟩
            rcases List.mem_cons.mp hm with he | hm2
            · cases he
              exact absurd hmem hl
            · exact (ih st2 _ _ id).1 (by rw [hoim]; exact ⟨k, b, hm2, hne, hfail, hmem⟩)
          · intro hn
            have h2 : ¬ uploadFailMark cfg st.owner_item_map bs id := by
              rintro ⟨k, b, hm2, hne, hfail, hmem⟩
              exact hn ⟨k, b, List.mem_cons_of_mem _ hm2, hne, hfail, hmem⟩
            refine ((ih st2 _ _ id).2 (by rw [hoim]; exact h2)).trans ?_
            rw [hfail2, if_neg hl]



lemma classify_no_entry (succ : List String) (iom : List (String × List String))
    (item : IngestionItem) :
    ∀ (reg : List (String × IngestionItem)) (failures : List (String × String)),
      (∀ p ∈ reg, p.2 ≠ item) →
      item ∉ (classifyItems succ iom reg failures).1 ∧
      (∀ r, (item, r) ∉ (classifyItems succ iom reg failures).2.1) := by
  intro reg
  induction reg with
  | nil => intro failures _; simp [classifyItems]
  | cons p rest ih =>
    intro failures hne
    obtain ⟨iid2, it2⟩ := p
    have hit2 : it2 ≠ item := hne (iid2, it2) (List.mem_cons_self _ _)
    have hrest : ∀ p ∈ rest, p.2 ≠ item := fun p hp => hne p (List.mem_cons_of_mem _ hp)
    unfold classifyItems
    dsimp only
    split
    · rename_i r hr
      obtain ⟨ih1, ih2⟩ := ih failures hrest
      refine ⟨ih1, ?_⟩
      intro r2
      intro hm
      rcases List.mem_cons.mp hm with he | hm2
      · exact hit2 (congrArg Prod.fst he).symm
      · exact ih2 r2 hm2
    · split
      · obtain ⟨ih1, ih2⟩ := ih failures hrest
        refine ⟨?_, ih2⟩
        intro hm
        rcases List.mem_cons.mp hm with he | hm2
        · exact hit2 he.symm
        · exact ih1 hm2
      · obtain ⟨ih1, ih2⟩ := ih (aset iid2 "Owner batch failed." failures) hrest
        refine ⟨ih1, ?_⟩
        intro r2 hm
        rcases List.mem_cons.mp hm with he | hm2
        · exact hit2 (congrArg Prod.fst he).symm
        · exact ih2 r2 hm2



lemma classify_entry (succ : List String) (iom : List (String × List String))
    (item : IngestionItem) :
    ∀ (reg : List (String × IngestionItem)) (failures : List (String × String)),
      (reg.map Prod.fst).Nodup →
      (∀ p ∈ reg, p.2.item_id = p.1) →
      (item.item_id, item) ∈ reg →
      ((item ∈ (classifyItems succ iom reg failures).1 ↔
          (alookup item.item_id failures = none ∧
           ((alookup item.item_id iom).getD [] ≠ [] ∧
            ((alookup item.item_id iom).getD []).all (fun k => succ.contains k) = true))) ∧
       (∀ r, alookup item.item_id failures = some r →
          (item, r) ∈ (classifyItems succ iom reg failures).2.1) ∧
       ((alookup item.item_id failures = none ∧
         ¬((alookup item.item_id iom).getD [] ≠ [] ∧
           ((alookup item.item_id iom).getD []).all (fun k => succ.contains k) = true)) →
          (item, "Owner batch failed.") ∈ (classifyItems succ iom reg failures).2.1)) := by
  intro reg
  induction reg with
  | nil => intro failures _ _ hm; simp at hm
  | cons p rest ih =>
    intro failures hnd hids hm
    obtain ⟨iid2, it2⟩ := p
    rw [List.map_cons, List.nodup_cons] at hnd
    obtain ⟨hnotin, hnd2⟩ := hnd
    rcases List.mem_cons.mp hm with he | hm2
    · -- the head IS the entry for `item`
      cases he
      have hrest_ne : ∀ p ∈ rest, p.2 ≠ item := by
        intro p hp hcontra
        exact hnotin (List.mem_map.mpr ⟨p, hp, by
          have h3 := hids p (List.mem_cons_of_mem _ hp)
          rw [← h3, hcontra]⟩)
      unfold classifyItems
      dsimp only
      split
      · rename_i r hr
        obtain ⟨hno1, hno2⟩ := classify_no_entry succ iom item rest failures hrest_ne
        refine ⟨?_, ?_, ?_⟩
        · rw [hr]
          constructor
          · intro hmem
            exact absurd hmem hno1
          · rintro ⟨hc, -⟩
            cases hc
        · intro r2 hr2
          rw [hr] at hr2
          cases hr2
          exact List.mem_cons_self _ _
        · rintro ⟨hc, -⟩
          rw [hr] at hc
          cases hc
      · rename_i hr
        split
        · rename_i hcond
          obtain ⟨hno1, hno2⟩ := classify_no_entry succ iom item rest failures hrest_ne
          refine ⟨?_, ?_, ?_⟩
          · rw [hr]
            constructor
            · intro _
              exact ⟨rfl, hcond⟩
            · intro _
              exact List.mem_cons_self _ _
          · intro r2 hr2
            rw [hr] at hr2
            cases hr2
          · rintro ⟨-, hnc⟩
            exact absurd hcond hnc
        · rename_i hcond
          obtain ⟨hno1, hno2⟩ := classify_no_entry succ iom item rest
            (aset item.item_id "Owner batch failed." failures) hrest_ne
          refine ⟨?_, ?_, ?_⟩
          · rw [hr]
            constructor
            · intro hmem
              exact absurd hmem hno1
            · rintro ⟨-, hc⟩
              exact absurd hc hcond
          · intro r2 hr2
            rw [hr] at hr2
            cases hr2
          · intro _
            exact List.mem_cons_self _ _
    · -- the entry for `item` is in the tail
      have hiid2 : iid2 ≠ item.item_id := by
        intro he2
        apply hnotin
        rw [he2]
        exact List.mem_map.mpr ⟨(item.item_id, item), hm2, rfl⟩
      have hit2 : it2 ≠ item := by
        intro he2
        apply hiid2
        have h3 := hids (iid2, it2) (List.mem_cons_self _ _)
        dsimp at h3
        rw [← h3, he2]
      have hids2 : ∀ p ∈ rest, p.2.item_id = p.1 :=
        fun p hp => hids p (List.mem_cons_of_mem _ hp)
      obtain ⟨ih1, ih2, ih3⟩ := ih failures hnd2 hids2 hm2
      obtain ⟨ih1b, ih2b, ih3b⟩ := ih (aset iid2 "Owner batch failed." failures) hnd2 hids2 hm2
      have hlk : alookup item.item_id (aset iid2 "Owner batch failed." failures) =
          alookup item.item_id failures :=
        alookup_aset_other _ _ (Ne.symm hiid2)
      unfold classifyItems
      dsimp only
      split
      · rename_i r hr
        refine ⟨ih1, ?_, ?_⟩
        · intro r2 hr2
          exact List.mem_cons_of_mem _ (ih2 r2 hr2)
        · intro hc
          exact List.mem_cons_of_mem _ (ih3 hc)
      · split
        · refine ⟨?_, ih2, ih3⟩
          rw [← ih1]
          constructor
          · intro hmem
            rcases List.mem_cons.mp hmem with he2 | hmem2
            · exact absurd he2.symm hit2
            · exact hmem2
          · intro hmem
            exact List.mem_cons_of_mem _ hmem
        · refine ⟨?_, ?_, ?_⟩
          · rw [← hlk]
            exact ih1b
          · intro r2 hr2
            refine List.mem_cons_of_mem _ (ih2b r2 ?_)
            rw [hlk]
            exact hr2
          · intro hc
            refine List.mem_cons_of_mem _ (ih3b ⟨?_, hc.2⟩)
            rw [hlk]
            exact hc.1



/-- Owner batch `k` uploads successfully in state `st`. -/
def batchUploadOk (cfg : EngineCfg) (st : EngineState) (k : String) : Prop :=
  ∃ b, alookup k st.owner_batches = some b ∧ b.transactions ≠ [] ∧
    cfg.upload_ok b.transactions b.budget_id = true

/-- Owner batch `k` has transactions but its upload fails in state `st`. -/
def batchFails (cfg : EngineCfg) (st : EngineState) (k : String) : Prop :=
  ∃ b, alookup k st.owner_batches = some b ∧ b.transactions ≠ [] ∧
    cfg.upload_ok b.transactions b.budget_id = false

lemma flush_not_flushed_parts (cfg : EngineCfg) (st : EngineState) (h : st.flushed = false) :
    (flush cfg st).result.successful_items =
      (classifyItems (flushBatches cfg st.owner_batches st [] []).2.1
        (flushBatches cfg st.owner_batches st [] []).1.item_owner_map
        (flushBatches cfg st.owner_batches st [] []).1.item_registry
        (flushBatches cfg st.owner_batches st [] []).1.item_failures).1 ∧
    (flush cfg st).result.failed_items =
      (classifyItems (flushBatches cfg st.owner_batches st [] []).2.1
        (flushBatches cfg st.owner_batches st [] []).1.item_owner_map
        (flushBatches cfg st.owner_batches st [] []).1.item_registry
        (flushBatches cfg st.owner_batches st [] []).1.item_failures).2.1 := by
  unfold flush
  rw [if_neg (by rw [h]; exact Bool.false_ne_true)]
  exact ⟨rfl, rfl⟩

/-- C2: under the engine's representation invariants (unique batch keys,
unique registry keys, registry keys equal to the items' ids, the item
registered with no pre-flush failure, a non-empty owner-key set, and the
owner-item maps mutually consistent), `flush` reports an item successful iff
every owner batch it contributed to uploads successfully; and if any of its
batches has transactions but fails its upload, the item is reported failed
with reason "YNAB upload failed." — items attached only to other batches are
governed by the same iff, hence unaffected. -/
theorem flush_item_success_iff_batches (cfg : EngineCfg) (st : EngineState)
    (item : IngestionItem)
    (hflush : st.flushed = false)
    (hnodupB : (st.owner_batches.map Prod.fst).Nodup)
    (hnodupR : (st.item_registry.map Prod.fst).Nodup)
    (hids : ∀ p ∈ st.item_registry, p.2.item_id = p.1)
    (hreg : (item.item_id, item) ∈ st.item_registry)
    (hnofail : alookup item.item_id st.item_failures = none)
    (hkeysne : (alookup item.item_id st.item_owner_map).getD [] ≠ [])
    (hlink : ∀ k, k ∈ (alookup item.item_id st.item_owner_map).getD [] ↔
        item.item_id ∈ (alookup k st.owner_item_map).getD []) :
    (item ∈ (flush cfg st).result.successful_items ↔
       ∀ k ∈ (alookup item.item_id st.item_owner_map).getD [], batchUploadOk cfg st k) ∧
    ((∃ k ∈ (alookup item.item_id st.item_owner_map).getD [], batchFails cfg st k) →
       (item, "YNAB upload failed.") ∈ (flush cfg st).result.failed_items) := by
  obtain ⟨hS, hF⟩ := flush_not_flushed_parts cfg st hflush
  obtain ⟨hfr, hfi, hfo, hfb⟩ := flushBatches_fields cfg st.owner_batches st [] []
  rw [hS, hF, hfr, hfi]
  have hsucc : ∀ k, k ∈ (flushBatches cfg st.owner_batches st [] []).2.1 ↔
      batchUploadOk cfg st k := by
    intro k
    rw [flushBatches_succ_iff]
    constructor
    · rintro (hf | ⟨b, hm, hne, hok⟩)
      · simp at hf
      · exact ⟨b, alookup_of_mem_nodup hnodupB hm, hne, hok⟩
    · rintro ⟨b, hlkb, hne, hok⟩
      exact Or.inr ⟨b, mem_of_alookup hlkb, hne, hok⟩
  have hmark_iff : uploadFailMark cfg st.owner_item_map st.owner_batches item.item_id ↔
      ∃ k ∈ (alookup item.item_id st.item_owner_map).getD [], batchFails cfg st k := by
    constructor
    · rintro ⟨k, b, hm, hne, hfail, hmem⟩
      exact ⟨k, (hlink k).mpr hmem, b, alookup_of_mem_nodup hnodupB hm, hne, hfail⟩
    · rintro ⟨k, hk, b, hlkb, hne, hfail⟩
      exact ⟨k, b, mem_of_alookup hlkb, hne, hfail, (hlink k).mp hk⟩
  obtain ⟨hmark_pos, hmark_neg⟩ := flushBatches_failures cfg st.owner_batches st [] []
    item.item_id
  by_cases hMk : uploadFailMark cfg st.owner_item_map st.owner_batches item.item_id
  · -- some batch the item contributed to fails its upload
    have hlkF := hmark_pos hMk
    obtain ⟨c1, c2, c3⟩ := classify_entry (flushBatches cfg st.owner_batches st [] []).2.1
      st.item_owner_map item st.item_registry
      (flushBatches cfg st.owner_batches st [] []).1.item_failures hnodupR hids hreg
    constructor
    · rw [c1, hlkF]
      constructor
      · rintro ⟨hc, -⟩
        cases hc
      · intro hall
        obtain ⟨k, hk, b, hlkb, hne, hfail⟩ := hmark_iff.mp hMk
        obtain ⟨b2, hlkb2, hne2, hok2⟩ := hall k hk
        rw [hlkb] at hlkb2
        cases hlkb2
        rw [hfail] at hok2
        cases hok2
    · intro _
      exact c2 "YNAB upload failed." hlkF
  · -- no failing batch among the item's owner keys
    have hlkF := (hmark_neg hMk).trans hnofail
    obtain ⟨c1, c2, c3⟩ := classify_entry (flushBatches cfg st.owner_batches st [] []).2.1
      st.item_owner_map item st.item_registry
      (flushBatches cfg st.owner_batches st [] []).1.item_failures hnodupR hids hreg
    constructor
    · rw [c1, hlkF]
      constructor
      · rintro ⟨-, -, hall⟩
        intro k hk
        exact (hsucc k).mp (List.elem_iff.mp (List.all_eq_true.mp hall k hk))
      · intro hall
        refine ⟨rfl, hkeysne, List.all_eq_true.mpr ?_⟩
        intro k hk
        exact List.elem_iff.mpr ((hsucc k).mpr (hall k hk))
    · intro hex
      exact absurd (hmark_iff.mpr hex) hMk



theorem flush_item_success_iff_batches_witness :
    stC.flushed = false ∧
    ((itemA ∈ (flush cfgC stC).result.successful_items ↔
        ∀ k ∈ (alookup itemA.item_id stC.item_owner_map).getD [], batchUploadOk cfgC stC k) ∧
     ((∃ k ∈ (alookup itemA.item_id stC.item_owner_map).getD [], batchFails cfgC stC k) →
        (itemA, "YNAB upload failed.") ∈ (flush cfgC stC).result.failed_items)) := by
  refine ⟨rfl, ?_⟩
  refine flush_item_success_iff_batches cfgC stC itemA rfl (by decide) (by decide)
    (by decide) (by decide) rfl (by decide) ?_
  intro k
  by_cases h1 : "alice" = k
  · cases h1
    decide
  · by_cases h2 : "bob" = k
    · cases h2
      decide
    · have hnone : alookup k stC.owner_item_map = none := by
        show alookup k [("alice", ["i1", "i2"]), ("bob", ["i1"])] = none
        simp [alookup, h1, h2]
      have hkeys : (alookup itemA.item_id stC.item_owner_map).getD [] = ["alice", "bob"] := by
        decide
      rw [hkeys, hnone]
      constructor
      · intro hk
        rcases List.mem_cons.mp hk with h | h
        · exact absurd h.symm h1
        · rcases List.mem_cons.mp h with h3 | h3
          · exact absurd h3.symm h2
          · simp at h3
      · intro hk
        simp at hk

/-- C3 witness: the idempotence theorem applied at a concrete two-batch
engine. -/
theorem flush_uploads_once_then_cached_witness :
    stC.flushed = false ∧
    ((flush cfgC stC).uploads =
        (stC.owner_batches.filter (fun kb => !(kb.2.transactions.isEmpty))).map
          (fun kb => (kb.2.budget_id, kb.2.transactions)) ∧
     (flush cfgC (flush cfgC stC).state).uploads = [] ∧
     (flush cfgC (flush cfgC stC).state).result = (flush cfgC stC).result ∧
     (flush cfgC (flush cfgC stC).state).state = (flush cfgC stC).state) :=
  ⟨rfl, flush_uploads_once_then_cached cfgC stC rfl⟩

/-! ## Claims C6, C7, C8 : archive extraction and passphrase search -/

lemma nextCand_none (cap : Int) (bf bf2 : BFState) :
    nextSixDigitCandidate cap bf = (none, bf2) → bf2 = bf := by
  obtain ⟨pool, count, heu⟩ := bf
  intro h
  unfold nextSixDigitCandidate at h
  rcases heu with _ | ⟨h0, hs⟩ <;> dsimp only at h
  · split at h
    · simp only [Prod.mk.injEq] at h
      exact h.2.symm
    · rcases pool with _ | ⟨p, ps⟩ <;> dsimp only at h
      · simp only [Prod.mk.injEq] at h
        exact h.2.symm
      · simp at h
  · split at h
    · simp only [Prod.mk.injEq] at h
      exact h.2.symm
    · simp at h

lemma nextCand_some_measure (cap : Int) (bf bf2 : BFState) (c : String) :
    nextSixDigitCandidate cap bf = (some c, bf2) →
    bfMeasure bf2 < bfMeasure bf ∧ bf2.count = bf.count + 1 := by
  obtain ⟨pool, count, heu⟩ := bf
  intro h
  unfold nextSixDigitCandidate at h
  rcases heu with _ | ⟨h0, hs⟩ <;> dsimp only at h
  · split at h
    · simp at h
    · rcases pool with _ | ⟨p, ps⟩ <;> dsimp only at h
      · simp at h
      · simp only [Prod.mk.injEq] at h
        rw [← h.2]
        refine ⟨?_, rfl⟩
        simp [bfMeasure]
  · split at h
    · simp at h
    · simp only [Prod.mk.injEq] at h
      rw [← h.2]
      refine ⟨?_, rfl⟩
      simp [bfMeasure]

lemma nextCand_some_cap (cap : Int) (bf bf2 : BFState) (c : String) (hcap : 0 < cap) :
    nextSixDigitCandidate cap bf = (some c, bf2) → bf.count < cap.toNat := by
  obtain ⟨pool, count, heu⟩ := bf
  intro h
  unfold nextSixDigitCandidate at h
  rcases heu with _ | ⟨h0, hs⟩ <;> dsimp only at h
  · split at h
    · simp at h
    · rename_i hcond
      rcases pool with _ | ⟨p, ps⟩ <;> dsimp only at h
      · simp at h
      · rw [Decidable.not_and_iff_or_not] at hcond
        rcases hcond with hc | hc
        · exact absurd hcap hc
        · simp only [BFState.count]
          omega
  · split at h
    · simp at h
    · rename_i hcond
      rw [Decidable.not_and_iff_or_not] at hcond
      rcases hcond with hc | hc
      · exact absurd hcap hc
      · simp only [BFState.count]
        omega

lemma candidateRun_unlimited (cap : Int) (hcap : cap ≤ 0) :
    ∀ fuel bf, bfMeasure bf ≤ fuel →
      candidateRun cap fuel bf = bf.heuristics ++ bf.pool.map format6 := by
  intro fuel
  induction fuel with
  | zero =>
    intro bf hm
    unfold bfMeasure at hm
    have h1 : bf.heuristics = [] := List.eq_nil_of_length_eq_zero (by omega)
    have h2 : bf.pool = [] := List.eq_nil_of_length_eq_zero (by omega)
    rw [h1, h2]
    rfl
  | succ fuel ih =>
    intro bf hm
    obtain ⟨pool, count, heu⟩ := bf
    have hnc : ¬ (0 < cap ∧ cap.toNat ≤ count) := by
      rintro ⟨hc, -⟩
      omega
    simp only [bfMeasure] at hm
    unfold candidateRun
    rcases heu with _ | ⟨h0, hs⟩
    · rcases pool with _ | ⟨p, ps⟩
      · have hstep : nextSixDigitCandidate cap ⟨[], count, []⟩ = (none, ⟨[], count, []⟩) := by
          unfold nextSixDigitCandidate
          dsimp only
          rw [if_neg hnc]
        rw [hstep]
        rfl
      · have hstep : nextSixDigitCandidate cap ⟨p :: ps, count, []⟩ =
            (some (format6 p), ⟨ps, count + 1, []⟩) := by
          unfold nextSixDigitCandidate
          dsimp only
          rw [if_neg hnc]
        rw [hstep]
        dsimp only
        rw [ih ⟨ps, count + 1, []⟩ (by simp only [bfMeasure]; simp at hm ⊢; omega)]
        simp
    · have hstep : nextSixDigitCandidate cap ⟨pool, count, h0 :: hs⟩ =
          (some h0, ⟨pool, count + 1, hs⟩) := by
        unfold nextSixDigitCandidate
        dsimp only
        rw [if_neg hnc]
      rw [hstep]
      dsimp only
      rw [ih ⟨pool, count + 1, hs⟩ (by simp only [bfMeasure]; simp at hm ⊢; omega)]
      simp

lemma candidateRun_cap_length (cap : Int) (hcap : 0 < cap) :
    ∀ fuel bf, (candidateRun cap fuel bf).length ≤ cap.toNat - bf.count := by
  intro fuel
  induction fuel with
  | zero => intro bf; simp [candidateRun]
  | succ fuel ih =>
    intro bf
    unfold candidateRun
    rcases hnc : nextSixDigitCandidate cap bf with ⟨cand, bf2⟩
    rcases cand with _ | c
    · simp
    · dsimp only
      have hcount := (nextCand_some_measure cap bf bf2 c hnc).2
      have hlt := nextCand_some_cap cap bf bf2 c hcap hnc
      have := ih bf2
      rw [List.length_cons]
      omega

lemma swap_cons_perm (x : Nat) : ∀ (xs : List Nat) (k : Nat), k < xs.length →
    (x :: xs).Perm (xs.getD k x :: xs.set k x) := by
  intro xs
  induction xs with
  | nil => intro k hk; simp at hk
  | cons a t ih =>
    intro k hk
    cases k with
    | zero =>
      simp only [List.getD_cons_zero, List.set_cons_zero]
      exact List.Perm.swap a x t
    | succ k =>
      simp only [List.getD_cons_succ, List.set_cons_succ]
      have h1 : (x :: a :: t).Perm (a :: x :: t) := List.Perm.swap a x t
      have h2 : (x :: t).Perm (t.getD k x :: t.set k x) := ih k (by simpa using hk)
      have h3 : (a :: x :: t).Perm (a :: (t.getD k x :: t.set k x)) := List.Perm.cons a h2
      have h4 : (a :: t.getD k x :: t.set k x).Perm (t.getD k x :: a :: t.set k x) :=
        List.Perm.swap (t.getD k x) a (t.set k x)
      exact (h1.trans h3).trans h4

lemma set_out_of_range (x : Nat) : ∀ (xs : List Nat) (k : Nat), xs.length ≤ k →
    xs.set k x = xs := by
  intro xs
  induction xs with
  | nil => intro k _; rfl
  | cons a t ih =>
    intro k hk
    cases k with
    | zero => simp at hk
    | succ k =>
      simp only [List.set_cons_succ]
      rw [ih k (by simpa using hk)]

lemma getD_out_of_range (x : Nat) : ∀ (xs : List Nat) (k : Nat), xs.length ≤ k →
    xs.getD k x = x := by
  intro xs
  induction xs with
  | nil => intro k _; rfl
  | cons a t ih =>
    intro k hk
    cases k with
    | zero => simp at hk
    | succ k =>
      simp only [List.getD_cons_succ]
      exact ih k (by simpa using hk)

lemma fy_step_perm (x : Nat) (xs : List Nat) (k : Nat) :
    (x :: xs).Perm ((x :: xs).getD k x :: (if k = 0 then xs else xs.set (k - 1) x)) := by
  cases k with
  | zero => simp
  | succ k =>
    simp only [List.getD_cons_succ, Nat.succ_ne_zero, if_false, Nat.succ_sub_one]
    by_cases hk : k < xs.length
    · exact swap_cons_perm x xs k hk
    · push_neg at hk
      rw [set_out_of_range x xs k hk, getD_out_of_range x xs k hk]

lemma fisherYates_perm (pick : Nat → Nat) : ∀ (n : Nat) (l : List Nat) (i : Nat),
    l.length = n → (fisherYates pick i l).Perm l := by
  intro n
  induction n with
  | zero =>
    intro l i hl
    rw [List.eq_nil_of_length_eq_zero hl]
    rw [fisherYates]
  | succ n ih =>
    intro l i hl
    rcases l with _ | ⟨x, xs⟩
    · simp at hl
    · rw [fisherYates]
      have hlen : (if pick i - i = 0 then xs else xs.set (pick i - i - 1) x).length = n := by
        split
        · simpa using hl
        · rw [List.length_set]
          simpa using hl
      have hrec := ih _ (i + 1) hlen
      have hstep := fy_step_perm x xs (pick i - i)
      exact (List.Perm.cons _ hrec).trans hstep.symm

lemma virtualShuffle_perm (pick : Nat → Nat) (n : Nat) :
    (virtualShuffle pick n).Perm (List.range n) :=
  fisherYates_perm pick n (List.range n) 0 (List.length_range n)

/-- C8: with an unlimited cap, the candidate stream of an identifier's fresh
brute-force state yields exactly the heuristic deque followed by the
six-digit enumeration; the enumeration is a permutation of `0..999999` (in
the order determined by the `randint` draws `pick`), hence duplicate-free —
every value appears at most once, and exactly once at exhaustion. -/
theorem six_digit_stream_heuristics_then_shuffle (pick : Nat → Nat) (cap : Int)
    (hcap : cap ≤ 0) :
    candidateRun cap (bfMeasure (initBFState pick)) (initBFState pick) =
      commonPassphrases ++ (virtualShuffle pick 1000000).map format6 ∧
    (virtualShuffle pick 1000000).Perm (List.range 1000000) ∧
    (virtualShuffle pick 1000000).Nodup := by
  refine ⟨?_, virtualShuffle_perm pick 1000000, ?_⟩
  · exact candidateRun_unlimited cap hcap _ _ (le_refl _)
  · exact ((virtualShuffle_perm pick 1000000).nodup_iff).mpr (List.nodup_range 1000000)

/-- C8 witness: the stream theorem at the identity draw sequence and cap 0. -/
theorem six_digit_stream_heuristics_then_shuffle_witness :
    (0 : Int) ≤ 0 ∧
    (candidateRun 0 (bfMeasure (initBFState (fun i => i))) (initBFState (fun i => i)) =
      commonPassphrases ++ (virtualShuffle (fun i => i) 1000000).map format6 ∧
    (virtualShuffle (fun i => i) 1000000).Perm (List.range 1000000) ∧
    (virtualShuffle (fun i => i) 1000000).Nodup) :=
  ⟨by decide, six_digit_stream_heuristics_then_shuffle (fun i => i) 0 (by decide)⟩

/-- Number of entries under key `k` (a Python dict always has 0 or 1). -/
def countKey (k : String) : List (String × String) → Nat
  | [] => 0
  | (k2, _) :: rest => (if k2 = k then 1 else 0) + countKey k rest

lemma countKey_aerase_lt (k : String) (v : String) :
    ∀ l : List (String × String), alookup k l = some v →
      countKey k (aerase k l) < countKey k l := by
  intro l
  induction l with
  | nil => intro h; simp [alookup] at h
  | cons p rest ih =>
    intro h
    obtain ⟨k2, v2⟩ := p
    by_cases hk : k2 = k
    · subst hk
      simp [aerase, countKey]
    · simp only [alookup, if_neg hk] at h
      simp only [aerase, if_neg hk, countKey]
      have := ih h
      omega

lemma aerase_aset_of_none (k : String) (v : String) :
    ∀ l : List (String × String), alookup k l = none → aerase k (aset k v l) = l := by
  intro l
  induction l with
  | nil => intro _; simp [aset, aerase]
  | cons p rest ih =>
    intro h
    obtain ⟨k2, v2⟩ := p
    by_cases hk : k2 = k
    · subst hk
      simp [alookup] at h
    · simp only [alookup, if_neg hk] at h
      simp only [aset, if_neg hk, aerase, if_neg hk]
      rw [ih h]

lemma pyOptStr_some {o : Option String} {p : String} (h : pyOptStr o = some p) :
    pyOptStr (some p) = some p := by
  rcases o with _ | s
  · simp [pyOptStr] at h
  · by_cases hs : s = ""
    · simp [pyOptStr, hs] at h
    · simp only [pyOptStr, if_neg hs, Option.some.injEq] at h
      subst h
      simp [pyOptStr, hs]

lemma readEnc_default_terminates (decrypt : String → DecOutcome) (cap : Int) (ck : String)
    (hnf : ∀ pw, decrypt pw ≠ DecOutcome.fatal) :
    ∀ (fuel : Nat) (cache : List (String × String)) (attempts : Nat) (env : Option String)
      (bf : BFState),
      countKey ck cache + (if attempts = 0 ∧ (pyOptStr env).isSome then 1 else 0) +
        bfMeasure bf + 1 ≤ fuel →
      ∃ out, readEncryptedMember decrypt (defaultResolver cap) ck fuel cache attempts (env, bf)
          = some out ∧
        ((∃ c pw, out.1 = ReadOutcome.got c ∧ decrypt pw = DecOutcome.ok c ∧
            alookup ck out.2.1 = some pw) ∨
          out.1 = ReadOutcome.skippedNoPassphrase) := by
  intro fuel
  induction fuel with
  | zero =>
    intro cache attempts env bf hb
    omega
  | succ fuel ih =>
    intro cache attempts env bf hb
    unfold readEncryptedMember
    rcases hc : alookup ck cache with _ | pw
    · -- no cached passphrase: consult the resolver
      dsimp only
      unfold defaultResolver
      dsimp only
      by_cases ha : attempts = 0
      · rw [if_pos ha]
        rcases he : pyOptStr env with _ | p
        · -- no environment passphrase: six-digit source
          dsimp only
          rcases hnc : nextSixDigitCandidate cap bf with ⟨cand, bf2⟩
          rcases cand with _ | c
          · exact ⟨_, rfl, Or.inr rfl⟩
          · dsimp only
            by_cases hce : c = ""
            · rw [hce]
              exact ⟨_, rfl, Or.inr rfl⟩
            · rw [show pyOptStr (some c) = some c by simp [pyOptStr, hce]]
              dsimp only
              rcases hd : decrypt c with c2 | _ | _
              · exact ⟨_, rfl, Or.inl ⟨c2, c, rfl, hd, alookup_aset_self ck c cache⟩⟩
              · rw [aerase_aset_of_none ck c cache hc]
                have hm2 := (nextCand_some_measure cap bf bf2 c hnc).1
                refine ih cache (attempts + 1) env bf2 ?_
                have : (if attempts + 1 = 0 ∧ (pyOptStr env).isSome then 1 else 0) = 0 := by
                  simp
                rw [this]
                rw [ha, he] at hb
                simp at hb
                omega
              · exact absurd hd (hnf c)
        · -- environment passphrase available at attempt 0
          dsimp only
          rw [pyOptStr_some he]
          dsimp only
          rcases hd : decrypt p with c2 | _ | _
          · exact ⟨_, rfl, Or.inl ⟨c2, p, rfl, hd, alookup_aset_self ck p cache⟩⟩
          · rw [aerase_aset_of_none ck p cache hc]
            refine ih cache (attempts + 1) env bf ?_
            have : (if attempts + 1 = 0 ∧ (pyOptStr env).isSome then 1 else 0) = 0 := by
              simp
            rw [this]
            rw [ha, he] at hb
            simp at hb
            omega
          · exact absurd hd (hnf p)
      · rw [if_neg ha]
        dsimp only
        rcases hnc : nextSixDigitCandidate cap bf with ⟨cand, bf2⟩
        rcases cand with _ | c
        · exact ⟨_, rfl, Or.inr rfl⟩
        · dsimp only
          by_cases hce : c = ""
          · rw [hce]
            exact ⟨_, rfl, Or.inr rfl⟩
          · rw [show pyOptStr (some c) = some c by simp [pyOptStr, hce]]
            dsimp only
            rcases hd : decrypt c with c2 | _ | _
            · exact ⟨_, rfl, Or.inl ⟨c2, c, rfl, hd, alookup_aset_self ck c cache⟩⟩
            · rw [aerase_aset_of_none ck c cache hc]
              have hm2 := (nextCand_some_measure cap bf bf2 c hnc).1
              refine ih cache (attempts + 1) env bf2 ?_
              have h0 : (if attempts + 1 = 0 ∧ (pyOptStr env).isSome then 1 else 0) = 0 := by
                simp
              rw [h0]
              have h1 : (if attempts = 0 ∧ (pyOptStr env).isSome then 1 else 0) = 0 := by
                simp [ha]
              rw [h1] at hb
              omega
            · exact absurd hd (hnf c)
    · -- cached passphrase from a sibling member
      dsimp only
      rcases hd : decrypt pw with c2 | _ | _
      · exact ⟨_, rfl, Or.inl ⟨c2, pw, rfl, hd, hc⟩⟩
      · have hlt := countKey_aerase_lt ck pw cache hc
        refine ih (aerase ck cache) (attempts + 1) env bf ?_
        have h0 : (if attempts + 1 = 0 ∧ (pyOptStr env).isSome then 1 else 0) = 0 := by
          simp
        rw [h0]
        omega
      · exact absurd hd (hnf pw)

/-- C7: for any encrypted member whose decryption attempts never raise a
non-passphrase error, the search loop driven by the default resolver
terminates within `countKey ck cache + bfMeasure bf + 2` iterations, and the
outcome is exactly one of: a candidate decrypts the member (and is then held
in the shared cache under the identity's key, for sibling members), or the
resolver produced no further candidate and the member is skipped.  The
resolver runs dry precisely per the source's cap semantics: a cap ≤ 0 means
the stream is the full heuristics-plus-generator enumeration (bounded only by
generator exhaustion), and a positive cap bounds the stream by the remaining
attempt budget. -/
theorem read_encrypted_member_search_trichotomy
    (decrypt : String → DecOutcome) (cap : Int) (ck : String)
    (cache : List (String × String)) (env : Option String) (bf : BFState)
    (hnf : ∀ pw, decrypt pw ≠ DecOutcome.fatal) :
    (∃ out, readEncryptedMember decrypt (defaultResolver cap) ck
        (countKey ck cache + bfMeasure bf + 2) cache 0 (env, bf) = some out ∧
      ((∃ c pw, out.1 = ReadOutcome.got c ∧ decrypt pw = DecOutcome.ok c ∧
          alookup ck out.2.1 = some pw) ∨
        out.1 = ReadOutcome.skippedNoPassphrase)) ∧
    (cap ≤ 0 → candidateRun cap (bfMeasure bf) bf = bf.heuristics ++ bf.pool.map format6) ∧
    (0 < cap → (candidateRun cap (bfMeasure bf) bf).length ≤ cap.toNat - bf.count) := by
  refine ⟨?_, ?_, ?_⟩
  · refine readEnc_default_terminates decrypt cap ck hnf _ cache 0 env bf ?_
    by_cases h : (pyOptStr env).isSome <;> simp [h] <;> omega
  · intro hcap
    exact candidateRun_unlimited cap hcap _ bf (le_refl _)
  · intro hcap
    exact candidateRun_cap_length cap hcap _ bf

def decryptW : String → DecOutcome := fun pw =>
  if pw = "000003" then DecOutcome.ok "data" else DecOutcome.wrongPass

def bfW : BFState := { pool := [5, 3], count := 0, heuristics := [] }

/-- C7 witness: the trichotomy applied to a concrete two-candidate source. -/
theorem read_encrypted_member_search_trichotomy_witness :
    (∀ pw, decryptW pw ≠ DecOutcome.fatal) ∧
    ((∃ out, readEncryptedMember decryptW (defaultResolver 0) "ck"
        (countKey "ck" [] + bfMeasure bfW + 2) [] 0 (none, bfW) = some out ∧
      ((∃ c pw, out.1 = ReadOutcome.got c ∧ decryptW pw = DecOutcome.ok c ∧
          alookup "ck" out.2.1 = some pw) ∨
        out.1 = ReadOutcome.skippedNoPassphrase)) ∧
    ((0 : Int) ≤ 0 → candidateRun 0 (bfMeasure bfW) bfW =
        bfW.heuristics ++ bfW.pool.map format6) ∧
    (0 < (0 : Int) → (candidateRun 0 (bfMeasure bfW) bfW).length ≤ (0 : Int).toNat - bfW.count)) :=
  ⟨fun pw => by unfold decryptW; split <;> simp,
   read_encrypted_member_search_trichotomy decryptW 0 "ck" [] none bfW
     (fun pw => by unfold decryptW; split <;> simp)⟩

lemma extractZip_sound {ρ : Type} (resolve : Nat → ρ → Option String × ρ) (ck : String)
    (allowed : List String) (fuel : Nat) :
    ∀ (members : List Member) (cache : List (String × String)) (rs : ρ) pair,
      pair ∈ (extractZip resolve ck allowed fuel members cache rs).1 →
      ∃ m ∈ members, pair.1 = m.filename ∧ memberSelected allowed m.filename = true := by
  intro members
  induction members with
  | nil => intro cache rs pair hp; simp [extractZip] at hp
  | cons m ms ih =>
    intro cache rs pair hp
    unfold extractZip at hp
    by_cases hs : memberSelected allowed m.filename
    · rw [if_pos hs] at hp
      dsimp only at hp
      rcases hd : (readMemberData resolve ck fuel m cache rs).1 with _ | c
      · rw [hd] at hp
        obtain ⟨m2, hm2, h1, h2⟩ := ih _ _ pair hp
        exact ⟨m2, List.mem_cons_of_mem _ hm2, h1, h2⟩
      · rw [hd] at hp
        dsimp only at hp
        by_cases hce : c = ""
        · rw [if_pos hce] at hp
          obtain ⟨m2, hm2, h1, h2⟩ := ih _ _ pair hp
          exact ⟨m2, List.mem_cons_of_mem _ hm2, h1, h2⟩
        · rw [if_neg hce] at hp
          rcases List.mem_cons.mp hp with he | hp2
          · subst he
            exact ⟨m, List.mem_cons_self _ _, rfl, hs⟩
          · obtain ⟨m2, hm2, h1, h2⟩ := ih _ _ pair hp2
            exact ⟨m2, List.mem_cons_of_mem _ hm2, h1, h2⟩
    · rw [if_neg hs] at hp
      obtain ⟨m2, hm2, h1, h2⟩ := ih _ _ pair hp
      exact ⟨m2, List.mem_cons_of_mem _ hm2, h1, h2⟩

/-- An encrypted member whose content fails to decompress under every
passphrase (the "corrupt" member of the spec scenario). -/
def corruptM : Member :=
  { filename := "corrupt.csv", encrypted := true, plainRead := none,
    decrypt := fun _ => DecOutcome.wrongPass }

/-- An encrypted member decryptable under passphrase `"1234"`. -/
def goodM : Member :=
  { filename := "good.csv", encrypted := true, plainRead := none,
    decrypt := fun pw => if pw = "1234" then DecOutcome.ok "data" else DecOutcome.wrongPass }

/-- An unencrypted member with readable content. -/
def plainM : Member :=
  { filename := "plain.csv", encrypted := false, plainRead := some "x,y",
    decrypt := fun _ => DecOutcome.wrongPass }

/-- C6: (1) every pair extracted comes from a member passing the
directory/allow-list filter; (2) a selected unencrypted member with non-empty
content is read directly and contributes its `(name, content)` pair while the
remaining members are processed independently; (3) in the concrete scenario —
one member whose decryption always fails with a decompression-style error and
one decryptable member, with the correct passphrase available — extraction
returns exactly the decryptable member, the corrupt one being silently
excluded rather than raising. -/
theorem extract_zip_allowlist_partial_success :
    (∀ {ρ : Type} (resolve : Nat → ρ → Option String × ρ) (ck : String)
       (allowed : List String) (fuel : Nat) (members : List Member)
       (cache : List (String × String)) (rs : ρ) (pair : String × String),
       pair ∈ (extractZip resolve ck allowed fuel members cache rs).1 →
       ∃ m ∈ members, pair.1 = m.filename ∧ memberSelected allowed m.filename = true) ∧
    (∀ {ρ : Type} (resolve : Nat → ρ → Option String × ρ) (ck : String)
       (allowed : List String) (fuel : Nat) (m : Member) (c : String) (ms : List Member)
       (cache : List (String × String)) (rs : ρ),
       memberSelected allowed m.filename = true → m.encrypted = false →
       m.plainRead = some c → c ≠ "" →
       (extractZip resolve ck allowed fuel (m :: ms) cache rs).1 =
         (m.filename, c) :: (extractZip resolve ck allowed fuel ms cache rs).1) ∧
    ((extractZip (defaultResolver 2) "sender" [".csv"] 6 [corruptM, goodM] []
        (some "1234", { pool := [], count := 0, heuristics := [] })).1 =
      [("good.csv", "data")]) := by
  refine ⟨?_, ?_, by decide⟩
  · intro ρ resolve ck allowed fuel members cache rs pair hp
    exact extractZip_sound resolve ck allowed fuel members cache rs pair hp
  · intro ρ resolve ck allowed fuel m c ms cache rs hs he hplain hce
    conv_lhs => unfold extractZip
    rw [if_pos hs]
    have hrd : readMemberData resolve ck fuel m cache rs = (some c, cache, rs) := by
      unfold readMemberData
      rw [he]
      simp only [Bool.false_eq_true, if_false]
      rw [hplain]
    rw [hrd]
    dsimp only
    rw [if_neg hce]

/-- C6 witness: the direct-read conjunct applied at a concrete plain member. -/
theorem extract_zip_allowlist_partial_success_witness :
    memberSelected [".csv"] plainM.filename = true ∧ plainM.encrypted = false ∧
    plainM.plainRead = some "x,y" ∧ ("x,y" : String) ≠ "" ∧
    (extractZip (defaultResolver 0) "ck" [".csv"] 3 [plainM] []
        (none, bfW)).1 =
      ("plain.csv", "x,y") :: (extractZip (defaultResolver 0) "ck" [".csv"] 3 [] []
        (none, bfW)).1 :=
  ⟨by decide, rfl, rfl, by decide,
   extract_zip_allowlist_partial_success.2.1 (defaultResolver 0) "ck" [".csv"] 3 plainM "x,y"
     [] [] (none, bfW) (by decide) rfl rfl (by decide)⟩

end YnabButler
